import Mathlib

set_option maxRecDepth 2000

/-
Verification of the affiliate-niche-finder analysis core.

The development shallowly embeds the Python analysis modules
(demand_analysis.py, competition_analysis.py, social_analysis.py and the
scoring part of dashboard.py).  Python values are modelled by the `PyVal`
type, Python dicts by insertion-ordered association lists with
last-write-wins assignment, Python floats by exact rationals, and the
stdlib pseudo-random generator by an explicit state (a 64-bit linear
congruential stand-in for the Mersenne twister: the analysed code relies
only on seeding determinism and state threading, never on the
distribution itself).  Exceptions are modelled with `Except`:
`Except.error` marks an uncaught Python exception.
-/

/-- A Python runtime value as used by the genre payloads: the analysers
receive lists, dicts (string keys, as produced by JSON and the LLM
suggester), strings, numbers, booleans and None.  Floats are modelled as
exact rationals. -/
inductive PyVal where
  | none : PyVal
  | bool (b : Bool) : PyVal
  | int (n : Int) : PyVal
  | float (q : ℚ) : PyVal
  | str (s : String) : PyVal
  | list (l : List PyVal) : PyVal
  | dict (d : List (String × PyVal)) : PyVal
deriving Repr

/-- Helper: decidable equality of a base type, packaged for the mutual
recursion below. -/
def decEqBy {α : Type} [inst : DecidableEq α] (a b : α) : Decidable (a = b) := inst a b

mutual

/-- Structural decidable equality on `PyVal` (the derive handler does not
support this nested inductive). -/
def PyVal.decEq : (a b : PyVal) → Decidable (a = b)
  | .none, .none => isTrue rfl
  | .bool a, .bool b =>
    match decEqBy a b with
    | isTrue h => isTrue (by rw [h])
    | isFalse h => isFalse (by intro hc; cases hc; exact h rfl)
  | .int a, .int b =>
    match decEqBy a b with
    | isTrue h => isTrue (by rw [h])
    | isFalse h => isFalse (by intro hc; cases hc; exact h rfl)
  | .float a, .float b =>
    match decEqBy a b with
    | isTrue h => isTrue (by rw [h])
    | isFalse h => isFalse (by intro hc; cases hc; exact h rfl)
  | .str a, .str b =>
    match decEqBy a b with
    | isTrue h => isTrue (by rw [h])
    | isFalse h => isFalse (by intro hc; cases hc; exact h rfl)
  | .list a, .list b =>
    match PyVal.decEqList a b with
    | isTrue h => isTrue (by rw [h])
    | isFalse h => isFalse (by intro hc; cases hc; exact h rfl)
  | .dict a, .dict b =>
    match PyVal.decEqDict a b with
    | isTrue h => isTrue (by rw [h])
    | isFalse h => isFalse (by intro hc; cases hc; exact h rfl)
  | .none, .bool _ => isFalse (by intro h; cases h)
  | .none, .int _ => isFalse (by intro h; cases h)
  | .none, .float _ => isFalse (by intro h; cases h)
  | .none, .str _ => isFalse (by intro h; cases h)
  | .none, .list _ => isFalse (by intro h; cases h)
  | .none, .dict _ => isFalse (by intro h; cases h)
  | .bool _, .none => isFalse (by intro h; cases h)
  | .bool _, .int _ => isFalse (by intro h; cases h)
  | .bool _, .float _ => isFalse (by intro h; cases h)
  | .bool _, .str _ => isFalse (by intro h; cases h)
  | .bool _, .list _ => isFalse (by intro h; cases h)
  | .bool _, .dict _ => isFalse (by intro h; cases h)
  | .int _, .none => isFalse (by intro h; cases h)
  | .int _, .bool _ => isFalse (by intro h; cases h)
  | .int _, .float _ => isFalse (by intro h; cases h)
  | .int _, .str _ => isFalse (by intro h; cases h)
  | .int _, .list _ => isFalse (by intro h; cases h)
  | .int _, .dict _ => isFalse (by intro h; cases h)
  | .float _, .none => isFalse (by intro h; cases h)
  | .float _, .bool _ => isFalse (by intro h; cases h)
  | .float _, .int _ => isFalse (by intro h; cases h)
  | .float _, .str _ => isFalse (by intro h; cases h)
  | .float _, .list _ => isFalse (by intro h; cases h)
  | .float _, .dict _ => isFalse (by intro h; cases h)
  | .str _, .none => isFalse (by intro h; cases h)
  | .str _, .bool _ => isFalse (by intro h; cases h)
  | .str _, .int _ => isFalse (by intro h; cases h)
  | .str _, .float _ => isFalse (by intro h; cases h)
  | .str _, .list _ => isFalse (by intro h; cases h)
  | .str _, .dict _ => isFalse (by intro h; cases h)
  | .list _, .none => isFalse (by intro h; cases h)
  | .list _, .bool _ => isFalse (by intro h; cases h)
  | .list _, .int _ => isFalse (by intro h; cases h)
  | .list _, .float _ => isFalse (by intro h; cases h)
  | .list _, .str _ => isFalse (by intro h; cases h)
  | .list _, .dict _ => isFalse (by intro h; cases h)
  | .dict _, .none => isFalse (by intro h; cases h)
  | .dict _, .bool _ => isFalse (by intro h; cases h)
  | .dict _, .int _ => isFalse (by intro h; cases h)
  | .dict _, .float _ => isFalse (by intro h; cases h)
  | .dict _, .str _ => isFalse (by intro h; cases h)
  | .dict _, .list _ => isFalse (by intro h; cases h)
termination_by structural a => a

/-- Decidable equality on lists of `PyVal`. -/
def PyVal.decEqList : (a b : List PyVal) → Decidable (a = b)
  | [], [] => isTrue rfl
  | [], _ :: _ => isFalse (by intro h; cases h)
  | _ :: _, [] => isFalse (by intro h; cases h)
  | x :: xs, y :: ys =>
    match PyVal.decEq x y with
    | isTrue h1 =>
      match PyVal.decEqList xs ys with
      | isTrue h2 => isTrue (by rw [h1, h2])
      | isFalse h2 => isFalse (by intro hc; cases hc; exact h2 rfl)
    | isFalse h1 => isFalse (by intro hc; cases hc; exact h1 rfl)
termination_by structural a => a

/-- Decidable equality on string-keyed `PyVal` association lists. -/
def PyVal.decEqDict : (a b : List (String × PyVal)) → Decidable (a = b)
  | [], [] => isTrue rfl
  | [], _ :: _ => isFalse (by intro h; cases h)
  | _ :: _, [] => isFalse (by intro h; cases h)
  | (k, x) :: xs, (l, y) :: ys =>
    match decEqBy k l with
    | isTrue hk =>
      match PyVal.decEq x y with
      | isTrue h1 =>
        match PyVal.decEqDict xs ys with
        | isTrue h2 => isTrue (by rw [hk, h1, h2])
        | isFalse h2 => isFalse (by intro hc; cases hc; exact h2 rfl)
      | isFalse h1 => isFalse (by intro hc; cases hc; exact h1 rfl)
    | isFalse hk => isFalse (by intro hc; cases hc; exact hk rfl)
termination_by structural a => a

end

instance : DecidableEq PyVal := PyVal.decEq

/-- An uncaught Python exception, as raised by the embedded code. -/
inductive PyErr where
  | typeError : PyErr
  | attributeError : PyErr
deriving DecidableEq, Repr

/-- Python truthiness (`bool(x)`): None, False, 0, 0.0, "", [], {} are
falsy, everything else truthy. -/
def PyVal.truthy : PyVal → Bool
  | .none => false
  | .bool b => b
  | .int n => decide (n ≠ 0)
  | .float q => decide (q ≠ 0)
  | .str s => decide (s ≠ "")
  | .list l => !l.isEmpty
  | .dict d => !d.isEmpty

/-- Python `len(x)`: defined for strings (code points), lists and dicts;
raises TypeError otherwise. -/
def pyLen : PyVal → Except PyErr Nat
  | .str s => .ok s.length
  | .list l => .ok l.length
  | .dict d => .ok d.length
  | _ => .error .typeError

/-- A one-character Python string. -/
def charStr (c : Char) : PyVal := .str (String.mk [c])

/-- Python iteration (`for x in v`): a list yields its elements, a string
yields its characters as one-character strings, a dict yields its keys;
anything else raises TypeError. -/
def pyIterate : PyVal → Except PyErr (List PyVal)
  | .list l => .ok l
  | .str s => .ok (s.data.map charStr)
  | .dict d => .ok (d.map (fun p => PyVal.str p.1))
  | _ => .error .typeError

/-- Lookup in a string-keyed payload dict (`d.get(k)`); payload dicts hold
each key at most once, so the first match is the binding. -/
def pyGet? : List (String × PyVal) → String → Option PyVal
  | [], _ => Option.none
  | p :: rest, k => if p.1 = k then some p.2 else pyGet? rest k

/-- Python `d.get(k, dflt)` on a payload dict. -/
def pyGetD (d : List (String × PyVal)) (k : String) (dflt : PyVal) : PyVal :=
  (pyGet? d k).getD dflt

/-- Membership test on a `PyVal`-keyed association dict (`k in d`). -/
def dHas {α : Type} (d : List (PyVal × α)) (k : PyVal) : Bool :=
  d.any (fun p => decide (p.1 = k))

/-- Lookup on a `PyVal`-keyed association dict. -/
def dGet? {α : Type} : List (PyVal × α) → PyVal → Option α
  | [], _ => Option.none
  | p :: rest, k => if p.1 = k then some p.2 else dGet? rest k

/-- Python `d.get(k, dflt)` on a `PyVal`-keyed dict. -/
def dGetD {α : Type} (d : List (PyVal × α)) (k : PyVal) (dflt : α) : α :=
  (dGet? d k).getD dflt

/-- Python dict assignment `d[k] = v`: overwrite in place if the key is
present (keeping its position, as dicts preserve first-insertion order),
otherwise append. -/
def dInsert {α : Type} : List (PyVal × α) → PyVal → α → List (PyVal × α)
  | [], k, v => [(k, v)]
  | p :: rest, k, v => if p.1 = k then (p.1, v) :: rest else p :: dInsert rest k v

/-- Step of the modelled stdlib pseudo-random generator: a 64-bit linear
congruential stand-in for the Mersenne twister state update.  The
analysed code depends only on determinism after `random.seed` and on the
threading of the ambient state, which this model preserves. -/
def randNext (s : ℕ) : ℕ := (6364136223846793005 * s + 1442695040888963407) % (2 ^ 64)

/-- Model of `random.seed(n)`: the resulting generator state is a function
of `n` alone. -/
def randSeed (n : ℕ) : ℕ := n % (2 ^ 64)

/-- Model of `random.randint(lo, hi)`: an integer in `[lo, hi]`, consuming
one generator step. -/
def randint (lo hi : ℕ) (s : ℕ) : ℕ × ℕ :=
  (lo + randNext s % (hi - lo + 1), randNext s)

/-- Model of `random.uniform(lo, hi)`: a rational in `[lo, hi)` (for
`lo < hi`), consuming one generator step. -/
def randUniform (lo hi : ℚ) (s : ℕ) : ℚ × ℕ :=
  (lo + (hi - lo) * (((randNext s % 2 ^ 53 : ℕ) : ℚ) / 2 ^ 53), randNext s)

/-- Computable floor of a rational (the denominator is positive, so
integer division of numerator by denominator floors). -/
def ratFloor (q : ℚ) : ℤ := q.num / q.den

/-- Python `int(x)` for a float: truncation toward zero. -/
def pyInt (q : ℚ) : ℤ := if q < 0 then -ratFloor (-q) else ratFloor q

/-- Rounding half to even on rationals, the tie-breaking used by Python's
`round`. -/
def roundHalfEven (q : ℚ) : ℤ :=
  if q - ratFloor q < 1 / 2 then ratFloor q
  else if q - ratFloor q > 1 / 2 then ratFloor q + 1
  else if ratFloor q % 2 = 0 then ratFloor q else ratFloor q + 1

/-- Python `round(x, 1)`. -/
def pyRound1 (q : ℚ) : ℚ := (roundHalfEven (q * 10) : ℚ) / 10

/-- Python `round(x, 2)`. -/
def pyRound2 (q : ℚ) : ℚ := (roundHalfEven (q * 100) : ℚ) / 100

/-- Whitespace characters accepted between JSON tokens. -/
def jsonWs (c : Char) : Bool := c = ' ' || c = '\t' || c = '\n' || c = '\r'

/-- Drop leading JSON whitespace. -/
def skipWs : List Char → List Char
  | [] => []
  | c :: cs => if jsonWs c then skipWs cs else c :: cs

/-- Decimal digit test. -/
def isDigitCh (c : Char) : Bool := '0' ≤ c && c ≤ '9'

/-- Split a character list into its leading run of digits and the rest. -/
def takeDigits : List Char → List Char × List Char
  | [] => ([], [])
  | c :: cs =>
    if isDigitCh c then
      let p := takeDigits cs
      (c :: p.1, p.2)
    else ([], c :: cs)

/-- Numeric value of a digit run. -/
def digitsVal (ds : List Char) : ℕ := ds.foldl (fun a c => a * 10 + (c.toNat - 48)) 0

/-- Value of one hexadecimal digit. -/
def hexVal (c : Char) : Option ℕ :=
  if '0' ≤ c && c ≤ '9' then some (c.toNat - 48)
  else if 'a' ≤ c && c ≤ 'f' then some (c.toNat - 87)
  else if 'A' ≤ c && c ≤ 'F' then some (c.toNat - 55)
  else Option.none

/-- Body of a JSON string after the opening quote, with the standard
escapes (surrogate pairs are not modelled). -/
def parseJStrAux : ℕ → List Char → List Char → Option (String × List Char)
  | 0, _, _ => Option.none
  | _ + 1, _, [] => Option.none
  | fuel + 1, acc, c :: cs =>
    if c = '"' then some (String.mk acc.reverse, cs)
    else if c = '\\' then
      match cs with
      | [] => Option.none
      | e :: cs2 =>
        match e with
        | '"' => parseJStrAux fuel ('"' :: acc) cs2
        | '\\' => parseJStrAux fuel ('\\' :: acc) cs2
        | '/' => parseJStrAux fuel ('/' :: acc) cs2
        | 'b' => parseJStrAux fuel (Char.ofNat 8 :: acc) cs2
        | 'f' => parseJStrAux fuel (Char.ofNat 12 :: acc) cs2
        | 'n' => parseJStrAux fuel ('\n' :: acc) cs2
        | 'r' => parseJStrAux fuel ('\r' :: acc) cs2
        | 't' => parseJStrAux fuel ('\t' :: acc) cs2
        | 'u' =>
          match cs2 with
          | h1 :: h2 :: h3 :: h4 :: cs3 =>
            match hexVal h1, hexVal h2, hexVal h3, hexVal h4 with
            | some a, some b, some c2, some d =>
              parseJStrAux fuel (Char.ofNat (((a * 16 + b) * 16 + c2) * 16 + d) :: acc) cs3
            | _, _, _, _ => Option.none
          | _ => Option.none
        | _ => Option.none
    else parseJStrAux fuel (c :: acc) cs

/-- Exponent part of a JSON number, after the `e`. -/
def parseExpDigits (cs : List Char) : Option (ℤ × List Char) :=
  let p1 : Bool × List Char :=
    match cs with
    | '-' :: r => (true, r)
    | '+' :: r => (false, r)
    | _ => (false, cs)
  let p2 := takeDigits p1.2
  if p2.1.isEmpty then Option.none
  else some ((if p1.1 then -(digitsVal p2.1 : ℤ) else (digitsVal p2.1 : ℤ)), p2.2)

/-- Ten to an integer power, as a rational. -/
def tenPow (e : ℤ) : ℚ := if e < 0 then 1 / (10 ^ e.natAbs : ℚ) else (10 ^ e.natAbs : ℚ)

/-- Assemble a JSON float from sign, integer digits, fraction digits and
exponent. -/
def mkFloat (neg : Bool) (ip fp : List Char) (e : ℤ) : PyVal :=
  let mag : ℚ := (digitsVal ip : ℚ) + (digitsVal fp : ℚ) / (10 ^ fp.length : ℚ)
  .float ((if neg then -mag else mag) * tenPow e)

/-- A JSON number: integers come back as `PyVal.int`, anything with a
fraction or exponent as `PyVal.float`, matching `json.loads`. -/
def parseNum (cs : List Char) : Option (PyVal × List Char) :=
  let p0 : Bool × List Char :=
    match cs with
    | '-' :: r => (true, r)
    | _ => (false, cs)
  let neg := p0.1
  let p1 := takeDigits p0.2
  let ip := p1.1
  if ip.isEmpty then Option.none else
  let p2 : List Char × List Char × Bool :=
    match p1.2 with
    | '.' :: r =>
      let q := takeDigits r
      (q.1, q.2, true)
    | _ => ([], p1.2, false)
  let fracDigits := p2.1
  let cs3 := p2.2.1
  let hasFrac := p2.2.2
  if hasFrac && fracDigits.isEmpty then Option.none else
  match cs3 with
  | 'e' :: r | 'E' :: r =>
    (match parseExpDigits r with
     | some (e, cs4) => some (mkFloat neg ip fracDigits e, cs4)
     | Option.none => Option.none)
  | _ =>
    if hasFrac then some (mkFloat neg ip fracDigits 0, cs3)
    else some (.int (if neg then -(digitsVal ip : ℤ) else (digitsVal ip : ℤ)), cs3)

/-- JSON object assignment: duplicate keys overwrite (last wins), as in
`json.loads`. -/
def sInsert : List (String × PyVal) → String → PyVal → List (String × PyVal)
  | [], k, v => [(k, v)]
  | p :: rest, k, v => if p.1 = k then (p.1, v) :: rest else p :: sInsert rest k v

mutual

/-- One JSON value (fuelled recursive descent). -/
def parseVal : ℕ → List Char → Option (PyVal × List Char)
  | 0, _ => Option.none
  | fuel + 1, cs =>
    match skipWs cs with
    | 'n' :: 'u' :: 'l' :: 'l' :: rest => some (.none, rest)
    | 't' :: 'r' :: 'u' :: 'e' :: rest => some (.bool true, rest)
    | 'f' :: 'a' :: 'l' :: 's' :: 'e' :: rest => some (.bool false, rest)
    | '"' :: rest => (parseJStrAux (rest.length + 1) [] rest).map (fun p => (.str p.1, p.2))
    | '[' :: rest =>
      (match skipWs rest with
       | ']' :: r2 => some (.list [], r2)
       | r2 => (parseArrItems fuel r2).map (fun p => (.list p.1, p.2)))
    | '{' :: rest =>
      (match skipWs rest with
       | '}' :: r2 => some (.dict [], r2)
       | r2 => (parseObjItems fuel [] r2).map (fun p => (.dict p.1, p.2)))
    | cs2 => parseNum cs2

/-- Comma-separated array items up to the closing bracket. -/
def parseArrItems : ℕ → List Char → Option (List PyVal × List Char)
  | 0, _ => Option.none
  | fuel + 1, cs => do
    let (v, r) ← parseVal fuel cs
    match skipWs r with
    | ',' :: r2 => (parseArrItems fuel r2).map (fun p => (v :: p.1, p.2))
    | ']' :: r2 => some ([v], r2)
    | _ => Option.none

/-- Comma-separated object members up to the closing brace. -/
def parseObjItems : ℕ → List (String × PyVal) → List Char → Option (List (String × PyVal) × List Char)
  | 0, _, _ => Option.none
  | fuel + 1, acc, cs =>
    match skipWs cs with
    | '"' :: rest => do
      let (k, r) ← parseJStrAux (rest.length + 1) [] rest
      match skipWs r with
      | ':' :: r2 => do
        let (v, r3) ← parseVal fuel r2
        let acc2 := sInsert acc k v
        match skipWs r3 with
        | ',' :: r4 => parseObjItems fuel acc2 r4
        | '}' :: r4 => some (acc2, r4)
        | _ => Option.none
      | _ => Option.none
    | _ => Option.none

end

/-- Model of `json.loads`: parse one value, require only whitespace after
it; `Option.none` is the `JSONDecodeError` outcome. -/
def jsonLoads (s : String) : Option PyVal :=
  match parseVal (2 * s.length + 8) s.data with
  | some (v, rest) => if skipWs rest = [] then some v else Option.none
  | Option.none => Option.none

/-- Prefix test on character lists. -/
def charsStarts : List Char → List Char → Bool
  | [], _ => true
  | _ :: _, [] => false
  | p :: ps, c :: cs => p == c && charsStarts ps cs

/-- Substring occurrence test on character lists. -/
def charsHasSub (pat : List Char) : List Char → Bool
  | [] => pat.isEmpty
  | c :: cs => charsStarts pat (c :: cs) || charsHasSub pat cs

/-- Python substring test `sub in s`. -/
def strHasSub (s sub : String) : Bool := charsHasSub sub.data s.data

/-- Model of `int(hashlib.md5(keyword.encode()).hexdigest(), 16)`: a fixed
deterministic 128-bit hash of the keyword's characters (the md5 compression
itself is irrelevant to the analysed behaviour; only that the value is a
pure function of the keyword matters). -/
def md5Int (s : String) : ℕ := s.data.foldl (fun h c => (h * 65599 + c.toNat) % 2 ^ 128) 5381

/-- Per-keyword Google-Trends aggregate (平均関心度, トレンド) as built by
analyze_trends from the interest-over-time response. -/
structure TrendInfo where
  interest : ℚ
  trend : String
deriving DecidableEq, Repr

/-- Synthetic search volume, demand_analysis.py lines 72-75: a plain
`random.randint(500, 10000)` drawn from the ambient generator state, with
no seeding — the keyword argument is never used. -/
def mock_search_volume (keyword : PyVal) (s : ℕ) : ℕ × ℕ :=
  let _ := keyword
  randint 500 10000 s

/-- Marker substrings treated as high-competition keywords
(competition_analysis.py line 95). -/
def common_keywords : List String := ["方法", "やり方", "おすすめ", "ランキング", "比較"]

/-- One keyword's competition metrics (難易度, 競合サイト数, データソース). -/
structure CompEntry where
  difficulty : ℚ
  competitors : ℤ
  source : String
deriving DecidableEq, Repr

/-- Record delivered by an external Semrush/Ubersuggest fetch, with the
`data.get("難易度", 0)` / `data.get("競合サイト数", 0)` defaults already
applied. -/
structure CompRec where
  difficulty : ℚ
  competitors : ℤ
deriving DecidableEq, Repr

/-- Synthetic competition metrics for a string keyword
(competition_analysis.py lines 80-107): seed from the md5 of the keyword,
draw base ~ Uniform(0,100), adjust by the length factor `len(keyword)/10`
and the marker-count factor, clamp to [0,100], and derive the competitor
count with `int(difficulty * 1000 + Uniform(0,10000))`.  Returns the entry
together with the generator state after the draws. -/
def mock_competition_data_core (keyword : String) : CompEntry × ℕ :=
  let s0 := randSeed (md5Int keyword)
  let bd := randUniform 0 100 s0
  let base_difficulty := bd.1
  let length_factor : ℚ := (keyword.length : ℚ) / 10
  let common_factor : ℚ := ((common_keywords.filter (fun w => strHasSub keyword w)).length : ℚ) * 10
  let difficulty := min 100 (max 0 (base_difficulty + common_factor - length_factor))
  let u := randUniform 0 10000 bd.2
  ({ difficulty := pyRound1 difficulty,
     competitors := pyInt (difficulty * 1000 + u.1),
     source := "モックデータ" }, u.2)

/-- mock_competition_data as called on an arbitrary value: `.encode()`
raises AttributeError on non-strings; for strings the function reseeds the
generator, so the incoming state `s` is discarded and both the entry and
the outgoing state depend on the keyword alone. -/
def mock_competition_data (keyword : PyVal) (s : ℕ) : Except PyErr (CompEntry × ℕ) :=
  let _ := s
  match keyword with
  | .str k => .ok (mock_competition_data_core k)
  | _ => .error .attributeError

/-- Marker substrings treated as popular topics (social_analysis.py
line 86). -/
def common_topics : List String := ["食べ物", "旅行", "アニメ", "ゲーム", "健康", "スポーツ"]

/-- One keyword's social metrics (総ツイート数, 平均エンゲージメント率,
感情傾向, データソース). -/
structure SocialEntry where
  tweetCount : ℤ
  engagementRate : ℚ
  sentiment : String
  source : String
deriving DecidableEq, Repr

/-- Record delivered by an external Twitter fetch, with the `data.get`
defaults already applied. -/
structure SocialRec where
  tweetCount : ℤ
  engagementRate : ℚ
  sentiment : String
deriving DecidableEq, Repr

/-- Model of `random.choices(sentiment_options, weights=[.2,.3,.3,.15,.05])`:
one uniform draw compared against the cumulative weights. -/
def sentimentChoice (s : ℕ) : String × ℕ :=
  let u := randUniform 0 1 s
  (if u.1 < 1 / 5 then "ポジティブ"
   else if u.1 < 1 / 2 then "やや肯定的"
   else if u.1 < 4 / 5 then "中立"
   else if u.1 < 19 / 20 then "やや否定的"
   else "ネガティブ", u.2)

/-- Synthetic Twitter metrics for a string keyword (social_analysis.py
lines 72-103): seed from the md5 of the keyword, draw the base tweet count,
triple it when a popular-topic marker occurs in the keyword, draw the
engagement rate and the weighted sentiment. -/
def mock_twitter_data_core (keyword : String) : SocialEntry × ℕ :=
  let s0 := randSeed (md5Int keyword)
  let bt := randint 50 5000 s0
  let topic_factor := common_topics.any (fun t => strHasSub keyword t)
  let tweet_count : ℤ := (bt.1 : ℤ) * (if topic_factor then 3 else 1)
  let er := randUniform (1 / 2) 10 bt.2
  let sc := sentimentChoice er.2
  ({ tweetCount := tweet_count,
     engagementRate := pyRound2 er.1,
     sentiment := sc.1,
     source := "モックデータ" }, sc.2)

/-- mock_twitter_data on an arbitrary value: `.encode()` raises
AttributeError on non-strings; for strings the generator is reseeded, so
the incoming state is discarded. -/
def mock_twitter_data (keyword : PyVal) (s : ℕ) : Except PyErr (SocialEntry × ℕ) :=
  let _ := s
  match keyword with
  | .str k => .ok (mock_twitter_data_core k)
  | _ => .error .attributeError

/-- Alias-key search of the conversion step (demand_analysis.py lines
112-115 and its verbatim copies): the first alias key bound to a list
value, if any. -/
def aliasSeq (d : List (String × PyVal)) : List String → Option PyVal
  | [] => Option.none
  | k :: ks =>
    match pyGet? d k with
    | some (.list l) => some (.list l)
    | _ => aliasSeq d ks

/-- Conversion of a non-list payload (demand_analysis.py lines 102-121,
repeated verbatim in competition_analysis.py and social_analysis.py): a
string is JSON-parsed (parse failure is caught and yields the early
`return {}`, encoded as `Option.none`); a dict is replaced by the list
under the first alias key among "genres", "ジャンル", "results", "data",
or wrapped as a one-entry list. -/
def convertGenres (genres : PyVal) : Option PyVal :=
  match genres with
  | .list l => some (.list l)
  | g0 =>
    let parsed : Option PyVal :=
      match g0 with
      | .str s => jsonLoads s
      | g => some g
    match parsed with
    | Option.none => Option.none
    | some (.dict d) =>
      (match aliasSeq d ["genres", "ジャンル", "results", "data"] with
       | some l => some l
       | Option.none => some (.list [.dict d]))
    | some g => some g

/-- The `isinstance(genres, (int, float, str))` rejection at line 124:
booleans count as ints in Python. -/
def isScalarLike : PyVal → Bool
  | .int _ => true
  | .float _ => true
  | .str _ => true
  | .bool _ => true
  | _ => false

/-- Per-entry coercion (demand_analysis.py lines 131-149 and its verbatim
copies): a dict entry yields its ジャンル名 and 関連するキーワード例 fields
(defaults "" and []), a string entry is both name and single keyword, any
other entry is skipped; entries with falsy name or falsy keywords are
dropped. -/
def extractGenre : PyVal → Option (PyVal × PyVal)
  | .dict d =>
    let gname := pyGetD d "ジャンル名" (.str "")
    let kws := pyGetD d "関連するキーワード例" (.list [])
    if gname.truthy && kws.truthy then some (gname, kws) else Option.none
  | .str s =>
    if (PyVal.str s).truthy then some (.str s, .list [.str s]) else Option.none
  | _ => Option.none

/-- Shared driver of the three genre analysers (the conversion, scalar
rejection, `for genre in genres` loop and per-entry extraction are
verbatim-identical in the three modules): fold the per-genre `step` over
the coerced entries, keying the output dict by genre name and threading
the generator state.  `gStep` is the body of the `for genre in genres`
loop: skipped entries leave the accumulator unchanged, analysed entries
assign their result under the genre name. -/
def gStep {β : Type} (step : PyVal → PyVal → ℕ → Except PyErr (β × ℕ))
    (acc : List (PyVal × β) × ℕ) (e : PyVal) : Except PyErr (List (PyVal × β) × ℕ) :=
  match extractGenre e with
  | Option.none => Except.ok acc
  | some (gname, kws) => do
    let r ← step gname kws acc.2
    Except.ok (dInsert acc.1 gname r.1, r.2)

def genreFold {β : Type} (step : PyVal → PyVal → ℕ → Except PyErr (β × ℕ))
    (genres : PyVal) (s : ℕ) : Except PyErr (List (PyVal × β) × ℕ) :=
  match convertGenres genres with
  | Option.none => .ok ([], s)
  | some g =>
    if isScalarLike g then .ok ([], s)
    else do
      let entries ← pyIterate g
      entries.foldlM (gStep step) ([], s)

/-- Fold of the per-keyword trend hits into the analyze_trends result
dict (demand_analysis.py lines 25-47): keywords the oracle has no data for
are simply absent. -/
def trendFold (oracle : PyVal → Option TrendInfo) (ks : List PyVal) :
    List (PyVal × TrendInfo) :=
  ks.foldl (fun acc k =>
    match oracle k with
    | some t => dInsert acc k t
    | Option.none => acc) []

/-- analyze_trends (demand_analysis.py lines 7-55): the pytrends network
response is abstracted by the per-keyword `oracle` (all network and pandas
failures are caught per group, so a missing response only omits the
keyword).  Grouping the keywords five at a time (line 23) slices the
argument, which raises TypeError when it is neither a list nor a string;
iterating a string argument yields its characters. -/
def analyze_trends (oracle : PyVal → Option TrendInfo) (keywords : PyVal) :
    Except PyErr (List (PyVal × TrendInfo)) :=
  match keywords with
  | .list l => .ok (trendFold oracle l)
  | .str s => .ok (trendFold oracle (s.data.map charStr))
  | _ => .error .typeError

/-- Shared shape of the three per-keyword loops (`for keyword in
keywords: results[keyword] = ...`): run the per-keyword step, assign the
result under the keyword and thread the generator state. -/
def kwFold {α : Type} (stepv : PyVal → ℕ → Except PyErr (α × ℕ)) (ks : List PyVal)
    (acc : List (PyVal × α) × ℕ) : Except PyErr (List (PyVal × α) × ℕ) :=
  ks.foldlM (fun acc2 k => do
    let r ← stepv k acc2.2
    Except.ok (dInsert acc2.1 k r.1, r.2)) acc

/-- get_search_volume (demand_analysis.py lines 57-87): iterate the
keywords (characters, for a string argument) and draw the unseeded mock
volume for each (the draw cannot raise, so the surrounding try/except is
inert); the api_key argument is never used by the checked-in code. -/
def get_search_volume (keywords : PyVal) (s : ℕ) :
    Except PyErr (List (PyVal × ℕ) × ℕ) := do
  let ks ← pyIterate keywords
  kwFold (fun k s2 => Except.ok (mock_search_volume k s2)) ks ([], s)

/-- One genre's demand result (ジャンル名, キーワード分析, 需要スコア). -/
structure DemandGenre where
  name : PyVal
  keywordAnalysis : List (PyVal × (TrendInfo × ℕ))
  score : ℚ
deriving DecidableEq, Repr

/-- The per-keyword combination dict of analyze_demand (demand_analysis.py
lines 163-168): トレンド情報 with default interest 0 / trend 不明, and
月間検索ボリューム with default 0. -/
def demandKwAnalysis (trends_data : List (PyVal × TrendInfo)) (search_volume : List (PyVal × ℕ))
    (ks : List PyVal) : List (PyVal × (TrendInfo × ℕ)) :=
  ks.foldl (fun acc k =>
    dInsert acc k (dGetD trends_data k ⟨0, "不明"⟩, dGetD search_volume k 0)) []

/-- The 需要スコア of demand_analysis.py lines 170-175:
`avg_interest*0.3 + avg_volume*0.5 + trend_score*100*0.2`, each average
guarded by the truthiness of the keywords value and dividing by its
Python length `n`. -/
def demandScoreOf (trends_data : List (PyVal × TrendInfo)) (search_volume : List (PyVal × ℕ))
    (ks : List PyVal) (kwsTruthy : Bool) (n : ℕ) : ℚ :=
  let avg_interest : ℚ :=
    if kwsTruthy then
      (ks.map (fun k => ((dGet? trends_data k).map TrendInfo.interest).getD 0)).sum / (n : ℚ)
    else 0
  let avg_volume : ℚ :=
    if kwsTruthy then
      (ks.map (fun k => ((dGetD search_volume k 0 : ℕ) : ℚ))).sum / (n : ℚ)
    else 0
  let trend_score : ℚ :=
    if kwsTruthy then
      ((ks.filter (fun k =>
        decide (((dGet? trends_data k).map TrendInfo.trend).getD "" = "上昇"))).length : ℚ) / (n : ℚ)
    else 0
  avg_interest * 0.3 + avg_volume * 0.5 + trend_score * 100 * 0.2

/-- Per-genre body of analyze_demand (demand_analysis.py lines 151-177):
combine trends and volumes per keyword and average them into the
需要スコア. -/
def demandGenreStep (oracle : PyVal → Option TrendInfo) (gname kws : PyVal) (s : ℕ) :
    Except PyErr (DemandGenre × ℕ) := do
  let trends_data ← analyze_trends oracle kws
  let sv ← get_search_volume kws s
  let ks ← pyIterate kws
  let n ← pyLen kws
  .ok ({ name := gname, keywordAnalysis := demandKwAnalysis trends_data sv.1 ks,
         score := demandScoreOf trends_data sv.1 ks kws.truthy n }, sv.2)

/-- analyze_demand (demand_analysis.py lines 89-179). -/
def analyze_demand (oracle : PyVal → Option TrendInfo) (genres : PyVal) (s : ℕ) :
    Except PyErr (List (PyVal × DemandGenre) × ℕ) :=
  genreFold (demandGenreStep oracle) genres s

/-- Per-keyword body of analyze_competition (competition_analysis.py lines
21-52): with a Semrush or Ubersuggest key the external fetch is tried and
any exception falls back to the synthetic generator for that keyword; the
fallback call sits in the `except` handler, so an exception it raises
itself (non-string keyword) propagates. -/
def compFallback (attempt : Except PyErr (CompEntry × ℕ)) (k : PyVal) (s : ℕ) :
    Except PyErr (CompEntry × ℕ) :=
  match attempt with
  | .ok r => .ok r
  | .error _ => mock_competition_data k s

/-- The guarded body of the keyword loop: the branch selected by the
configured keys, wrapped in the synthetic fallback. -/
def compKeywordStep (semrushKey uberKey : Bool)
    (semrushFetch uberFetch : PyVal → Except PyErr CompRec)
    (k : PyVal) (s : ℕ) : Except PyErr (CompEntry × ℕ) :=
  compFallback
    (if semrushKey then
      (semrushFetch k).map (fun d => (⟨d.difficulty, d.competitors, "Semrush"⟩, s))
    else if uberKey then
      (uberFetch k).map (fun d => (⟨d.difficulty, d.competitors, "Ubersuggest"⟩, s))
    else mock_competition_data k s) k s

/-- analyze_competition (competition_analysis.py lines 7-52): iterate the
keywords (characters, for a string argument) and collect one entry per
keyword. -/
def analyze_competition (semrushKey uberKey : Bool)
    (semrushFetch uberFetch : PyVal → Except PyErr CompRec)
    (keywords : PyVal) (s : ℕ) : Except PyErr (List (PyVal × CompEntry) × ℕ) := do
  let ks ← pyIterate keywords
  kwFold (compKeywordStep semrushKey uberKey semrushFetch uberFetch) ks ([], s)

/-- One genre's competition result (ジャンル名, キーワード競合分析,
競合の少なさスコア). -/
structure CompGenre where
  name : PyVal
  keywordAnalysis : List (PyVal × CompEntry)
  score : ℚ
deriving DecidableEq, Repr

/-- Per-genre body of analyze_genre_competition (competition_analysis.py
lines 172-187): line 182 averages `data.get("キーワード難易度", 0)` over
the per-keyword entries and line 185 reports `100 - avg_difficulty`.
Only the provider-path entries (lines 26-39, データソース "Semrush" /
"Ubersuggest") are keyed キーワード難易度; the synthetic entries built by
mock_competition_data (line 104, the no-key path and the exception
fallback) are keyed 難易度 instead, so the lookup's default 0 is what
every synthetic entry contributes to the average.  The `source` field of
a `CompEntry` records which construction path — hence which key shape —
produced it. -/
def compScoreOf (competition_data : List (PyVal × CompEntry)) : ℚ :=
  100 -
    (if competition_data.isEmpty then 0
     else (competition_data.map (fun p =>
        if p.2.source = "モックデータ" then 0 else p.2.difficulty)).sum
       / (competition_data.length : ℚ))

/-- The per-genre 競合の少なさスコア wrapper around the keyword loop. -/
def compGenreStep (semrushKey uberKey : Bool)
    (semrushFetch uberFetch : PyVal → Except PyErr CompRec)
    (gname kws : PyVal) (s : ℕ) : Except PyErr (CompGenre × ℕ) := do
  let cd ← analyze_competition semrushKey uberKey semrushFetch uberFetch kws s
  .ok ({ name := gname, keywordAnalysis := cd.1, score := compScoreOf cd.1 }, cd.2)

/-- analyze_genre_competition (competition_analysis.py lines 109-189). -/
def analyze_genre_competition (semrushKey uberKey : Bool)
    (semrushFetch uberFetch : PyVal → Except PyErr CompRec)
    (genres : PyVal) (s : ℕ) : Except PyErr (List (PyVal × CompGenre) × ℕ) :=
  genreFold (compGenreStep semrushKey uberKey semrushFetch uberFetch) genres s

/-- Per-keyword body of analyze_twitter_engagement (social_analysis.py
lines 21-41), mirroring the competition structure: external fetch when a
bearer token is configured, synthetic fallback on failure, the fallback
itself unprotected. -/
def socialFallback (attempt : Except PyErr (SocialEntry × ℕ)) (k : PyVal) (s : ℕ) :
    Except PyErr (SocialEntry × ℕ) :=
  match attempt with
  | .ok r => .ok r
  | .error _ => mock_twitter_data k s

/-- The guarded body of the Twitter keyword loop. -/
def socialKeywordStep (token : Bool) (fetch : PyVal → Except PyErr SocialRec)
    (k : PyVal) (s : ℕ) : Except PyErr (SocialEntry × ℕ) :=
  socialFallback
    (if token then
      (fetch k).map (fun d => (⟨d.tweetCount, d.engagementRate, d.sentiment, "Twitter API"⟩, s))
    else mock_twitter_data k s) k s

/-- analyze_twitter_engagement (social_analysis.py lines 8-41). -/
def analyze_twitter_engagement (token : Bool) (fetch : PyVal → Except PyErr SocialRec)
    (keywords : PyVal) (s : ℕ) : Except PyErr (List (PyVal × SocialEntry) × ℕ) := do
  let ks ← pyIterate keywords
  kwFold (socialKeywordStep token fetch) ks ([], s)

/-- The sentiment-to-score mapping of social_analysis.py lines 181-187,
applied through `.get(x, 0)`. -/
def sentiment_map (x : String) : ℚ :=
  if x = "ポジティブ" then 1
  else if x = "やや肯定的" then 1 / 2
  else if x = "中立" then 0
  else if x = "やや否定的" then -(1 / 2)
  else if x = "ネガティブ" then -1
  else 0

/-- One genre's social result (ジャンル名, SNS分析, SNSスコア). -/
structure SocialGenre where
  name : PyVal
  keywordAnalysis : List (PyVal × SocialEntry)
  score : ℚ
deriving DecidableEq, Repr

/-- Per-genre body of analyze_genre_social (social_analysis.py lines
167-199): average tweet counts, engagement rates and mapped sentiments,
normalise each to a 0-100 subscore and weight them 0.3/0.5/0.2. -/
def socialScoreOf (twitter_data : List (PyVal × SocialEntry)) : ℚ :=
  let n : ℚ := (twitter_data.length : ℚ)
  let avg_tweet_count : ℚ :=
    if twitter_data.isEmpty then 0
    else (twitter_data.map (fun p => (p.2.tweetCount : ℚ))).sum / n
  let avg_engagement : ℚ :=
    if twitter_data.isEmpty then 0
    else (twitter_data.map (fun p => p.2.engagementRate)).sum / n
  let avg_sentiment : ℚ :=
    if twitter_data.isEmpty then 0
    else (twitter_data.map (fun p => sentiment_map p.2.sentiment)).sum / n
  let tweet_count_score := min 100 (avg_tweet_count / 50)
  let engagement_score := min 100 (avg_engagement * 10)
  let sentiment_score := (avg_sentiment + 1) * 50
  tweet_count_score * 0.3 + engagement_score * 0.5 + sentiment_score * 0.2

/-- The per-genre SNSスコア wrapper around the Twitter keyword loop. -/
def socialGenreStep (token : Bool) (fetch : PyVal → Except PyErr SocialRec)
    (gname kws : PyVal) (s : ℕ) : Except PyErr (SocialGenre × ℕ) := do
  let td ← analyze_twitter_engagement token fetch kws s
  .ok ({ name := gname, keywordAnalysis := td.1, score := socialScoreOf td.1 }, td.2)

/-- analyze_genre_social (social_analysis.py lines 105-201). -/
def analyze_genre_social (token : Bool) (fetch : PyVal → Except PyErr SocialRec)
    (genres : PyVal) (s : ℕ) : Except PyErr (List (PyVal × SocialGenre) × ℕ) :=
  genreFold (socialGenreStep token fetch) genres s

/-- One genre's composite entry as stored in final_scores (総合スコア,
需要スコア, 競合の少なさスコア, and SNSスコア only when the genre has a
social result). -/
structure FinalScore where
  total : ℚ
  demandScore : ℚ
  compScore : ℚ
  socialScore : Option ℚ
deriving DecidableEq, Repr

/-- calculate_final_scores (dashboard.py lines 322-349): for every genre
key of the demand mapping, look up the three axis scores (defaults 0) and
combine them 0.4/0.4/0.2 when the genre has a social result, else
0.5/0.5.  No clamping is applied anywhere in this function. -/
def calculate_final_scores (demand_data : List (PyVal × DemandGenre))
    (competition_data : List (PyVal × CompGenre))
    (social_data : List (PyVal × SocialGenre)) : List (PyVal × FinalScore) :=
  (demand_data.map Prod.fst).foldl (fun acc gname =>
    let demand_score := ((dGet? demand_data gname).map DemandGenre.score).getD 0
    let competition_score := ((dGet? competition_data gname).map CompGenre.score).getD 0
    let inSocial := dHas social_data gname
    let social_score := if inSocial then ((dGet? social_data gname).map SocialGenre.score).getD 0 else 0
    let total_score :=
      if inSocial then demand_score * 0.4 + competition_score * 0.4 + social_score * 0.2
      else demand_score * 0.5 + competition_score * 0.5
    dInsert acc gname
      ⟨total_score, demand_score, competition_score,
       if inSocial then some social_score else Option.none⟩) []

/-- The per-genre body of calculate_final_scores as a function of the
genre name (it reads only the three fixed mappings). -/
def finalScoreOf (demand_data : List (PyVal × DemandGenre))
    (competition_data : List (PyVal × CompGenre))
    (social_data : List (PyVal × SocialGenre)) (gname : PyVal) : FinalScore :=
  let demand_score := ((dGet? demand_data gname).map DemandGenre.score).getD 0
  let competition_score := ((dGet? competition_data gname).map CompGenre.score).getD 0
  let inSocial := dHas social_data gname
  let social_score := if inSocial then ((dGet? social_data gname).map SocialGenre.score).getD 0 else 0
  ⟨if inSocial then demand_score * 0.4 + competition_score * 0.4 + social_score * 0.2
    else demand_score * 0.5 + competition_score * 0.5,
   demand_score, competition_score,
   if inSocial then some social_score else Option.none⟩

/-- A fetch hook that is never consulted (the dashboard configures no
Semrush/Ubersuggest keys, and an empty bearer token disables the Twitter
branch). -/
def noCompFetch : PyVal → Except PyErr CompRec := fun _ => .error .typeError

/-- An unused Twitter fetch hook. -/
def noSocialFetch : PyVal → Except PyErr SocialRec := fun _ => .error .typeError

/-- One analysis run as wired by the dashboard (dashboard.py lines 82-96):
demand, competition (no provider keys), optional social, then the
composite scores. -/
def runAnalysis (oracle : PyVal → Option TrendInfo) (addTweet : Bool)
    (payload : PyVal) (s : ℕ) : Except PyErr (List (PyVal × FinalScore)) := do
  let dd ← analyze_demand oracle payload s
  let cd ← analyze_genre_competition false false noCompFetch noCompFetch payload dd.2
  let sd ← if addTweet then analyze_genre_social false noSocialFetch payload cd.2
           else .ok ([], cd.2)
  .ok (calculate_final_scores dd.1 cd.1 sd.1)

/-- The first seeded draw of the synthetic competition generator: the
base difficulty, Uniform(0,100). -/
def compBaseDraw (k : String) : ℚ := (randUniform 0 100 (randSeed (md5Int k))).1

/-- The second seeded draw of the synthetic competition generator: the
competitor-count noise, Uniform(0,10000). -/
def compNoiseDraw (k : String) : ℚ :=
  (randUniform 0 10000 (randUniform 0 100 (randSeed (md5Int k))).2).1

/-- The internal clamped difficulty of the synthetic competition
generator: `clamp(base + commonFactor - lengthFactor, 0, 100)` with
`commonFactor` ten per marker substring and `lengthFactor = len/10`. -/
def compClampedDifficulty (k : String) : ℚ :=
  min 100 (max 0 (compBaseDraw k +
    ((common_keywords.filter (fun w => strHasSub k w)).length : ℚ) * 10 - (k.length : ℚ) / 10))

/-- A one-entry payload whose keyword field is the raw string `s`. -/
def strKwPayload (name : PyVal) (s : String) : PyVal :=
  .list [.dict [("ジャンル名", name), ("関連するキーワード例", .str s)]]

/-- The same payload with the keyword field already exploded into the
character list that Python iteration produces from the string. -/
def listKwPayload (name : PyVal) (s : String) : PyVal :=
  .list [.dict [("ジャンル名", name), ("関連するキーワード例", .list (s.data.map charStr))]]

/-- Keyword fields every analyser can process without raising: a string
or a list of strings. -/
def kwsGood : PyVal → Bool
  | .str _ => true
  | .list l => l.all (fun x => match x with | .str _ => true | _ => false)
  | _ => false

/-- An entry is harmless when it is dropped or skipped, or its keyword
field is good. -/
def goodEntry (e : PyVal) : Bool :=
  match extractGenre e with
  | Option.none => true
  | some (_, kws) => kwsGood kws

/-- Payloads on which every analyser terminates without an uncaught
exception: the converted value must not be None (the genre loop would
raise TypeError) and analysed entries must carry good keyword fields. -/
def safePayload (p : PyVal) : Bool :=
  match convertGenres p with
  | Option.none => true
  | some g =>
    if isScalarLike g then true
    else
      match g with
      | .list l => l.all goodEntry
      | .dict _ => true
      | _ => false

/-- A minimal well-formed one-genre payload used by the concrete
witnesses. -/
def samplePayload : PyVal :=
  .list [.dict [("ジャンル名", .str "A"), ("関連するキーワード例", .list [.str "k"])]]

/-- The demand run on the sample payload with no trends data. -/
def demandRun : Except PyErr (List (PyVal × DemandGenre) × ℕ) :=
  analyze_demand (fun _ => Option.none) samplePayload 0

/-- Output mapping of the sample demand run. -/
def demandRunOut : List (PyVal × DemandGenre) := (demandRun.toOption.getD ([], 0)).1

/-- Final generator state of the sample demand run. -/
def demandRunSt : ℕ := (demandRun.toOption.getD ([], 0)).2

/-- The competition run on the sample payload with no provider keys. -/
def compRun : Except PyErr (List (PyVal × CompGenre) × ℕ) :=
  analyze_genre_competition false false noCompFetch noCompFetch samplePayload 0

/-- Output mapping of the sample competition run. -/
def compRunOut : List (PyVal × CompGenre) := (compRun.toOption.getD ([], 0)).1

/-- Final generator state of the sample competition run. -/
def compRunSt : ℕ := (compRun.toOption.getD ([], 0)).2

/-- The social run on the sample payload with no bearer token. -/
def socialRun : Except PyErr (List (PyVal × SocialGenre) × ℕ) :=
  analyze_genre_social false noSocialFetch samplePayload 0

/-- Output mapping of the sample social run. -/
def socialRunOut : List (PyVal × SocialGenre) := (socialRun.toOption.getD ([], 0)).1

/-- Final generator state of the sample social run. -/
def socialRunSt : ℕ := (socialRun.toOption.getD ([], 0)).2

/-- A payload with two valid entries sharing one genre name. -/
def dupPayload : PyVal :=
  .list [.dict [("ジャンル名", .str "A"), ("関連するキーワード例", .list [.str "x"])],
         .dict [("ジャンル名", .str "A"), ("関連するキーワード例", .list [.str "y"])]]

/-- The competition run on the duplicate-name payload. -/
def dupRun : Except PyErr (List (PyVal × CompGenre) × ℕ) :=
  analyze_genre_competition false false noCompFetch noCompFetch dupPayload 0

/-- Output mapping of the duplicate-name competition run. -/
def dupRunOut : List (PyVal × CompGenre) := (dupRun.toOption.getD ([], 0)).1

/-- Final generator state of the duplicate-name competition run. -/
def dupRunSt : ℕ := (dupRun.toOption.getD ([], 0)).2

/-- The demand run on a payload whose keyword field is the string "ab". -/
def strKwRun : Except PyErr (List (PyVal × DemandGenre) × ℕ) :=
  analyze_demand (fun _ => Option.none) (strKwPayload (.str "T") "ab") 0

/-- Output mapping of the string-keyword demand run. -/
def strKwRunOut : List (PyVal × DemandGenre) := (strKwRun.toOption.getD ([], 0)).1

/-- Final generator state of the string-keyword demand run. -/
def strKwRunSt : ℕ := (strKwRun.toOption.getD ([], 0)).2

/-- Concrete demand mapping for the composite-score witness. -/
def fsDemand : List (PyVal × DemandGenre) := [(.str "A", ⟨.str "A", [], 10⟩)]

/-- Concrete competition mapping for the composite-score witness. -/
def fsComp : List (PyVal × CompGenre) := [(.str "A", ⟨.str "A", [], 20⟩)]

/-- Concrete social mapping for the composite-score witness. -/
def fsSocial : List (PyVal × SocialGenre) := [(.str "A", ⟨.str "A", [], 30⟩)]

/-- Decidable equality of Except values, for evaluating run results. -/
instance {ε α : Type} [DecidableEq ε] [DecidableEq α] : DecidableEq (Except ε α) := fun a b =>
  match a, b with
  | .ok x, .ok y =>
    match decEqBy x y with
    | isTrue h => isTrue (by rw [h])
    | isFalse h => isFalse (by intro hc; cases hc; exact h rfl)
  | .error x, .error y =>
    match decEqBy x y with
    | isTrue h => isTrue (by rw [h])
    | isFalse h => isFalse (by intro hc; cases hc; exact h rfl)
  | .ok _, .error _ => isFalse (by intro h; cases h)
  | .error _, .ok _ => isFalse (by intro h; cases h)

/-- Names of the entries that survive per-entry extraction, in order. -/
def analyzedNames (l : List PyVal) : List PyVal :=
  l.filterMap (fun e => (extractGenre e).map Prod.fst)

/-- First occurrences of a name sequence, in order of first appearance. -/
def firstOccs (ns : List PyVal) : List PyVal :=
  ns.foldl (fun ks n => if n ∈ ks then ks else ks ++ [n]) []

/-- Membership in a dict is existence of a binding with that key. -/
theorem dHas_iff_exists {α : Type} {d : List (PyVal × α)} {k : PyVal} :
    dHas d k = true ↔ ∃ p ∈ d, p.1 = k := by
  simp [dHas, List.any_eq_true]

/-- Absence from a dict means no binding has that key. -/
theorem dHas_eq_false_iff {α : Type} {d : List (PyVal × α)} {k : PyVal} :
    dHas d k = false ↔ ∀ p ∈ d, p.1 ≠ k := by
  simp [dHas, List.any_eq_false]

/-- Lookup succeeds exactly on dict members. -/
theorem dGet?_isSome_eq_dHas {α : Type} (d : List (PyVal × α)) (k : PyVal) :
    (dGet? d k).isSome = dHas d k := by
  induction d with
  | nil => simp [dGet?, dHas]
  | cons p rest ih =>
    by_cases h : p.1 = k
    · simp [dGet?, dHas, h]
    · simp only [dGet?, if_neg h]
      rw [ih]
      simp [dHas, List.any_cons, h]

/-- A successful lookup returns the value of a binding with that key. -/
theorem dGet?_eq_some_imp {α : Type} {d : List (PyVal × α)} {k : PyVal} {v : α}
    (h : dGet? d k = some v) : ∃ p ∈ d, p.1 = k ∧ p.2 = v := by
  induction d with
  | nil => simp [dGet?] at h
  | cons p rest ih =>
    by_cases hp : p.1 = k
    · simp [dGet?, hp] at h
      exact ⟨p, by simp, hp, h⟩
    · simp [dGet?, hp] at h
      obtain ⟨q, hq, h1, h2⟩ := ih h
      exact ⟨q, by simp [hq], h1, h2⟩

/-- Looking up the just-assigned key returns the new value. -/
theorem dGet?_dInsert_self {α : Type} (d : List (PyVal × α)) (k : PyVal) (v : α) :
    dGet? (dInsert d k v) k = some v := by
  induction d with
  | nil => simp [dInsert, dGet?]
  | cons p rest ih =>
    by_cases h : p.1 = k
    · simp [dInsert, h, dGet?]
    · simp [dInsert, h, dGet?, ih]

/-- Assignment does not disturb other keys. -/
theorem dGet?_dInsert_ne {α : Type} (d : List (PyVal × α)) (k k' : PyVal) (v : α)
    (h : k' ≠ k) : dGet? (dInsert d k v) k' = dGet? d k' := by
  induction d with
  | nil => simp [dInsert, dGet?, Ne.symm h]
  | cons p rest ih =>
    by_cases hp : p.1 = k
    · simp [dInsert, hp, dGet?, Ne.symm h]
    · by_cases hp' : p.1 = k'
      · simp [dInsert, hp, dGet?, hp', h]
      · simp [dInsert, hp, dGet?, hp', ih]

/-- The just-assigned key is a member. -/
theorem dHas_dInsert_self {α : Type} (d : List (PyVal × α)) (k : PyVal) (v : α) :
    dHas (dInsert d k v) k = true := by
  rw [← dGet?_isSome_eq_dHas, dGet?_dInsert_self]
  rfl

/-- Assignment preserves membership. -/
theorem dHas_dInsert_mono {α : Type} {d : List (PyVal × α)} {k' : PyVal}
    (k : PyVal) (v : α) (h : dHas d k' = true) : dHas (dInsert d k v) k' = true := by
  by_cases hk : k' = k
  · subst hk; exact dHas_dInsert_self d k' v
  · rw [← dGet?_isSome_eq_dHas, dGet?_dInsert_ne d k k' v hk, dGet?_isSome_eq_dHas]
    exact h

/-- Key sequence after an assignment: unchanged on overwrite, the new key
appended on fresh insertion. -/
theorem keys_dInsert {α : Type} (d : List (PyVal × α)) (k : PyVal) (v : α) :
    (dInsert d k v).map Prod.fst =
      if dHas d k = true then d.map Prod.fst else d.map Prod.fst ++ [k] := by
  induction d with
  | nil => simp [dInsert, dHas]
  | cons p rest ih =>
    by_cases h : p.1 = k
    · simp [dInsert, h, dHas]
    · have : dHas (p :: rest) k = dHas rest k := by
        simp [dHas, List.any_cons, h]
      rw [this]
      by_cases hr : dHas rest k = true
      · simp [dInsert, h, ih, hr]
      · simp [dInsert, h, ih, hr]

/-- Membership is membership of the key sequence. -/
theorem dHas_eq_mem_keys {α : Type} (d : List (PyVal × α)) (k : PyVal) :
    dHas d k = true ↔ k ∈ d.map Prod.fst := by
  rw [dHas_iff_exists]
  simp only [List.mem_map]

/-- A binding property preserved by all bindings and the assigned pair is
preserved by assignment. -/
theorem dInsert_forall {α : Type} {P : PyVal × α → Prop} {d : List (PyVal × α)}
    {k : PyVal} {v : α} (hd : ∀ p ∈ d, P p) (hv : P (k, v)) :
    ∀ p ∈ dInsert d k v, P p := by
  induction d with
  | nil => simpa [dInsert] using hv
  | cons p rest ih =>
    intro q hq
    by_cases h : p.1 = k
    · rw [dInsert, if_pos h] at hq
      rcases List.mem_cons.mp hq with h1 | h2
      · subst h1; rw [h]; exact hv
      · exact hd _ (List.mem_cons_of_mem _ h2)
    · rw [dInsert, if_neg h] at hq
      rcases List.mem_cons.mp hq with h1 | h2
      · subst h1; exact hd _ (List.mem_cons_self _ _)
      · exact ih (fun r hr => hd _ (List.mem_cons_of_mem _ hr)) _ h2

/-- Assignment never empties a dict. -/
theorem dInsert_ne_nil {α : Type} (d : List (PyVal × α)) (k : PyVal) (v : α) :
    dInsert d k v ≠ [] := by
  cases d with
  | nil => simp [dInsert]
  | cons p rest =>
    rw [dInsert]
    split <;> simp

/-- The uniform draw stays in `[lo, hi)`. -/
theorem randUniform_bounds {lo hi : ℚ} (h : lo < hi) (s : ℕ) :
    lo ≤ (randUniform lo hi s).1 ∧ (randUniform lo hi s).1 < hi := by
  have hpow : (0 : ℚ) < 2 ^ 53 := by norm_num
  have hmlt : randNext s % 2 ^ 53 < 2 ^ 53 := Nat.mod_lt _ (by norm_num)
  have hcast : ((randNext s % 2 ^ 53 : ℕ) : ℚ) < 2 ^ 53 := by
    calc ((randNext s % 2 ^ 53 : ℕ) : ℚ) < ((2 ^ 53 : ℕ) : ℚ) := by exact_mod_cast hmlt
    _ = 2 ^ 53 := by push_cast; ring
  have h0 : (0 : ℚ) ≤ ((randNext s % 2 ^ 53 : ℕ) : ℚ) / 2 ^ 53 :=
    div_nonneg (Nat.cast_nonneg _) (le_of_lt hpow)
  have h1 : ((randNext s % 2 ^ 53 : ℕ) : ℚ) / 2 ^ 53 < 1 := (div_lt_one hpow).mpr hcast
  unfold randUniform
  dsimp only
  set u := ((randNext s % 2 ^ 53 : ℕ) : ℚ) / 2 ^ 53 with hu
  have hmul0 : 0 ≤ (hi - lo) * u := mul_nonneg (le_of_lt (sub_pos.mpr h)) h0
  have hmul1 : (hi - lo) * u < (hi - lo) * 1 := mul_lt_mul_of_pos_left h1 (sub_pos.mpr h)
  constructor
  · linarith
  · linarith

/-- The randint draw is at least the lower bound. -/
theorem randint_fst_lb (lo hi s : ℕ) : lo ≤ (randint lo hi s).1 := by
  unfold randint
  dsimp only
  omega

/-- The randint draw is at most the upper bound. -/
theorem randint_fst_ub {lo hi : ℕ} (h : lo ≤ hi) (s : ℕ) : (randint lo hi s).1 ≤ hi := by
  unfold randint
  dsimp only
  have hlt : randNext s % (hi - lo + 1) < hi - lo + 1 := Nat.mod_lt _ (by omega)
  omega

/-- The computable floor agrees with the floor of the ordered field. -/
theorem ratFloor_eq (q : ℚ) : ratFloor q = ⌊q⌋ := Rat.floor_def.symm

/-- Half-even rounding never exceeds an integer upper bound of the
argument. -/
theorem roundHalfEven_le {q : ℚ} {m : ℤ} (h : q ≤ m) : roundHalfEven q ≤ m := by
  unfold roundHalfEven
  rw [ratFloor_eq]
  have hf : ⌊q⌋ ≤ m := by
    calc ⌊q⌋ ≤ ⌊(m : ℚ)⌋ := Int.floor_le_floor h
    _ = m := Int.floor_intCast m
  have hfl : (⌊q⌋ : ℚ) ≤ q := Int.floor_le q
  split_ifs with h1 h2 h3
  · exact hf
  · have : (⌊q⌋ : ℚ) < (m : ℚ) := by linarith
    have : ⌊q⌋ < m := by exact_mod_cast this
    omega
  · exact hf
  · have heq : q - ⌊q⌋ = 1 / 2 := le_antisymm (not_lt.mp h2) (not_lt.mp h1)
    have : (⌊q⌋ : ℚ) < (m : ℚ) := by linarith
    have : ⌊q⌋ < m := by exact_mod_cast this
    omega

/-- Half-even rounding respects integer lower bounds of the argument. -/
theorem le_roundHalfEven {q : ℚ} {m : ℤ} (h : (m : ℚ) ≤ q) : m ≤ roundHalfEven q := by
  unfold roundHalfEven
  rw [ratFloor_eq]
  have hf : m ≤ ⌊q⌋ := Int.le_floor.mpr h
  split_ifs <;> omega

/-- Rounding to one decimal keeps a value of `[0, 100]` inside
`[0, 100]`. -/
theorem pyRound1_mem {q : ℚ} (h0 : 0 ≤ q) (h100 : q ≤ 100) :
    0 ≤ pyRound1 q ∧ pyRound1 q ≤ 100 := by
  have l1 : (0 : ℤ) ≤ roundHalfEven (q * 10) := le_roundHalfEven (by push_cast; linarith)
  have l2 : roundHalfEven (q * 10) ≤ (1000 : ℤ) := roundHalfEven_le (by push_cast; linarith)
  unfold pyRound1
  have c1 : (0 : ℚ) ≤ (roundHalfEven (q * 10) : ℚ) := by exact_mod_cast l1
  have c2 : ((roundHalfEven (q * 10) : ℚ)) ≤ 1000 := by exact_mod_cast l2
  constructor
  · linarith
  · linarith

/-- Rounding to two decimals preserves non-negativity. -/
theorem pyRound2_nonneg {q : ℚ} (h : 0 ≤ q) : 0 ≤ pyRound2 q := by
  have l1 : (0 : ℤ) ≤ roundHalfEven (q * 100) := le_roundHalfEven (by push_cast; linarith)
  unfold pyRound2
  have c1 : (0 : ℚ) ≤ (roundHalfEven (q * 100) : ℚ) := by exact_mod_cast l1
  linarith

/-- Truncation agrees with the floor on non-negative arguments. -/
theorem pyInt_eq_floor {q : ℚ} (h : 0 ≤ q) : pyInt q = ⌊q⌋ := by
  unfold pyInt
  rw [if_neg (not_lt.mpr h), ratFloor_eq]

/-- Truncation preserves non-negativity. -/
theorem pyInt_nonneg {q : ℚ} (h : 0 ≤ q) : 0 ≤ pyInt q := by
  rw [pyInt_eq_floor h]
  exact Int.floor_nonneg.mpr h

/-- A list sum is bounded by the length times an elementwise upper
bound. -/
theorem list_sum_le_mul {l : List ℚ} {b : ℚ} (h : ∀ x ∈ l, x ≤ b) :
    l.sum ≤ (l.length : ℚ) * b := by
  induction l with
  | nil => simp
  | cons x xs ih =>
    simp only [List.sum_cons, List.length_cons]
    have hx := h x (by simp)
    have hxs := ih (fun y hy => h y (by simp [hy]))
    push_cast
    linarith

/-- A list sum dominates the length times an elementwise lower bound. -/
theorem mul_le_list_sum {l : List ℚ} {a : ℚ} (h : ∀ x ∈ l, a ≤ x) :
    (l.length : ℚ) * a ≤ l.sum := by
  induction l with
  | nil => simp
  | cons x xs ih =>
    simp only [List.sum_cons, List.length_cons]
    have hx := h x (by simp)
    have hxs := ih (fun y hy => h y (by simp [hy]))
    push_cast
    linarith

/-- The average of a non-empty list lies between elementwise bounds. -/
theorem avg_mem {l : List ℚ} {a b : ℚ} (hne : l ≠ []) (ha : ∀ x ∈ l, a ≤ x)
    (hb : ∀ x ∈ l, x ≤ b) :
    a ≤ l.sum / (l.length : ℚ) ∧ l.sum / (l.length : ℚ) ≤ b := by
  have hl : 0 < (l.length : ℚ) := by
    have := List.length_pos.mpr hne
    exact_mod_cast this
  constructor
  · rw [le_div_iff₀ hl]
    have := mul_le_list_sum ha
    linarith
  · rw [div_le_iff₀ hl]
    have := list_sum_le_mul hb
    linarith

/-- A truthy iterable yields a non-empty element sequence. -/
theorem truthy_iterate_ne_nil {v : PyVal} {l : List PyVal} (ht : v.truthy = true)
    (h : pyIterate v = .ok l) : l ≠ [] := by
  cases v with
  | list xs =>
    simp [pyIterate] at h
    subst h
    simp [PyVal.truthy, List.isEmpty_iff] at ht
    exact ht
  | str s =>
    simp [pyIterate] at h
    subst h
    simp [PyVal.truthy] at ht
    intro hc
    apply ht
    cases s with
    | mk data =>
      simp at hc
      simp [hc]
  | dict d =>
    simp [pyIterate] at h
    subst h
    simp [PyVal.truthy, List.isEmpty_iff] at ht
    simp [ht]
  | none => simp [pyIterate] at h
  | bool b => simp [pyIterate] at h
  | int n => simp [pyIterate] at h
  | float q => simp [pyIterate] at h

/-- The iterated length equals the Python length of the iterable. -/
theorem pyLen_eq_iterate_length {v : PyVal} {l : List PyVal}
    (h : pyIterate v = .ok l) : pyLen v = .ok l.length := by
  cases v with
  | list xs => simp [pyIterate] at h; subst h; rfl
  | str s =>
    simp [pyIterate] at h
    subst h
    simp [pyLen, List.length_map]
  | dict d =>
    simp [pyIterate] at h
    subst h
    simp [pyLen, List.length_map]
  | none => simp [pyIterate] at h
  | bool b => simp [pyIterate] at h
  | int n => simp [pyIterate] at h
  | float q => simp [pyIterate] at h

/-- A successfully extracted entry has a truthy name and truthy
keywords. -/
theorem extractGenre_some_truthy {e g k : PyVal} (h : extractGenre e = some (g, k)) :
    g.truthy = true ∧ k.truthy = true := by
  cases e with
  | dict d =>
    simp only [extractGenre] at h
    split_ifs at h with hc
    injection h with h1
    injection h1 with hg hk
    subst hg; subst hk
    exact ⟨(Bool.and_eq_true _ _ |>.mp hc).1, (Bool.and_eq_true _ _ |>.mp hc).2⟩
  | str s =>
    simp only [extractGenre] at h
    split_ifs at h with hc
    injection h with h1
    injection h1 with hg hk
    subst hg; subst hk
    exact ⟨hc, by simp [PyVal.truthy]⟩
  | none => simp [extractGenre] at h
  | bool b => simp [extractGenre] at h
  | int n => simp [extractGenre] at h
  | float q => simp [extractGenre] at h
  | list l2 => simp [extractGenre] at h

/-- Unfolding equation: an empty keyword loop returns the accumulator. -/
theorem kwFold_nil {α : Type} (stepv : PyVal → ℕ → Except PyErr (α × ℕ))
    (acc : List (PyVal × α) × ℕ) : kwFold stepv [] acc = .ok acc := rfl

/-- Unfolding equation: one iteration of the keyword loop. -/
theorem kwFold_cons {α : Type} (stepv : PyVal → ℕ → Except PyErr (α × ℕ))
    (k : PyVal) (ks : List PyVal) (acc : List (PyVal × α) × ℕ) :
    kwFold stepv (k :: ks) acc =
      match stepv k acc.2 with
      | .ok r => kwFold stepv ks (dInsert acc.1 k r.1, r.2)
      | .error e => .error e := by
  unfold kwFold
  rw [List.foldlM_cons]
  cases stepv k acc.2 <;> rfl

/-- Master specification of the keyword loop: when it succeeds, every
binding satisfies the per-step property, existing members are kept, every
iterated keyword is a member, and the output dict is non-empty whenever
the input dict or the keyword list is. -/
theorem kwFold_spec {α : Type} {P : PyVal × α → Prop}
    (stepv : PyVal → ℕ → Except PyErr (α × ℕ))
    (hP : ∀ k s r, stepv k s = .ok r → P (k, r.1)) :
    ∀ (ks : List PyVal) (acc out : List (PyVal × α) × ℕ),
      kwFold stepv ks acc = .ok out → (∀ p ∈ acc.1, P p) →
      (∀ p ∈ out.1, P p) ∧
      (∀ k0, dHas acc.1 k0 = true → dHas out.1 k0 = true) ∧
      (∀ k0 ∈ ks, dHas out.1 k0 = true) ∧
      (acc.1 ≠ [] → out.1 ≠ []) ∧
      (ks ≠ [] → out.1 ≠ []) := by
  intro ks
  induction ks with
  | nil =>
    intro acc out h hacc
    rw [kwFold_nil] at h
    injection h with h
    subst h
    exact ⟨hacc, fun _ h => h, by simp, fun h => h, by simp⟩
  | cons k rest ih =>
    intro acc out h hacc
    rw [kwFold_cons] at h
    cases hstep : stepv k acc.2 with
    | error e => rw [hstep] at h; simp at h
    | ok r =>
      rw [hstep] at h
      have hacc2 : ∀ p ∈ dInsert acc.1 k r.1, P p :=
        dInsert_forall hacc (hP k acc.2 r hstep)
      obtain ⟨i1, i2, i3, i4, i5⟩ := ih (dInsert acc.1 k r.1, r.2) out h hacc2
      refine ⟨i1, ?_, ?_, ?_, ?_⟩
      · intro k0 hk0
        exact i2 k0 (dHas_dInsert_mono k r.1 hk0)
      · intro k0 hk0
        rcases List.mem_cons.mp hk0 with h1 | h2
        · subst h1
          exact i2 k0 (dHas_dInsert_self acc.1 k0 r.1)
        · exact i3 k0 h2
      · intro _
        exact i4 (dInsert_ne_nil _ _ _)
      · intro _
        exact i4 (dInsert_ne_nil _ _ _)

/-- When the step at a fixed keyword always returns the same value, the
loop leaves exactly that value bound to the keyword. -/
theorem kwFold_value {α : Type} (stepv : PyVal → ℕ → Except PyErr (α × ℕ))
    {v : α} {k0 : PyVal} (hv : ∀ s r, stepv k0 s = .ok r → r.1 = v) :
    ∀ (ks : List PyVal) (acc out : List (PyVal × α) × ℕ),
      kwFold stepv ks acc = .ok out →
      (dGet? acc.1 k0 = some v ∨ k0 ∈ ks) → dGet? out.1 k0 = some v := by
  intro ks
  induction ks with
  | nil =>
    intro acc out h hd
    rw [kwFold_nil] at h
    injection h with h
    subst h
    rcases hd with h1 | h2
    · exact h1
    · simp at h2
  | cons k rest ih =>
    intro acc out h hd
    rw [kwFold_cons] at h
    cases hstep : stepv k acc.2 with
    | error e => rw [hstep] at h; simp at h
    | ok r =>
      rw [hstep] at h
      apply ih (dInsert acc.1 k r.1, r.2) out h
      by_cases hk : k0 ∈ rest
      · exact Or.inr hk
      · left
        by_cases hkk : k0 = k
        · subst hkk
          rw [dGet?_dInsert_self]
          rw [hv acc.2 r hstep]
        · rw [dGet?_dInsert_ne acc.1 k k0 r.1 hkk]
          rcases hd with h1 | h2
          · exact h1
          · rcases List.mem_cons.mp h2 with h3 | h4
            · exact absurd h3 hkk
            · exact absurd h4 hk

/-- The keyword loop succeeds when every step does. -/
theorem kwFold_ok {α : Type} (stepv : PyVal → ℕ → Except PyErr (α × ℕ)) :
    ∀ (ks : List PyVal) (acc : List (PyVal × α) × ℕ),
      (∀ k ∈ ks, ∀ s, ∃ r, stepv k s = .ok r) →
      ∃ out, kwFold stepv ks acc = .ok out := by
  intro ks
  induction ks with
  | nil =>
    intro acc _
    exact ⟨acc, kwFold_nil stepv acc⟩
  | cons k rest ih =>
    intro acc hok
    obtain ⟨r, hr⟩ := hok k (by simp) acc.2
    obtain ⟨out, hout⟩ := ih (dInsert acc.1 k r.1, r.2) (fun k2 hk2 => hok k2 (by simp [hk2]))
    refine ⟨out, ?_⟩
    rw [kwFold_cons, hr]
    exact hout

/-- Unfolding equation: empty entry loop. -/
theorem gFold_nil {β : Type} (step : PyVal → PyVal → ℕ → Except PyErr (β × ℕ))
    (acc : List (PyVal × β) × ℕ) : List.foldlM (gStep step) acc [] = .ok acc := rfl

/-- Unfolding equation: one iteration of the entry loop. -/
theorem gFold_cons {β : Type} (step : PyVal → PyVal → ℕ → Except PyErr (β × ℕ))
    (e : PyVal) (entries : List PyVal) (acc : List (PyVal × β) × ℕ) :
    List.foldlM (gStep step) acc (e :: entries) =
      match gStep step acc e with
      | .ok acc2 => List.foldlM (gStep step) acc2 entries
      | .error err => .error err := by
  rw [List.foldlM_cons]
  cases gStep step acc e <;> rfl

/-- The entry-loop body on a skipped entry. -/
theorem gStep_skip {β : Type} {step : PyVal → PyVal → ℕ → Except PyErr (β × ℕ)}
    {acc : List (PyVal × β) × ℕ} {e : PyVal} (h : extractGenre e = Option.none) :
    gStep step acc e = .ok acc := by
  unfold gStep
  rw [h]

/-- The entry-loop body on an analysed entry. -/
theorem gStep_run {β : Type} {step : PyVal → PyVal → ℕ → Except PyErr (β × ℕ)}
    {acc : List (PyVal × β) × ℕ} {e g k : PyVal} (h : extractGenre e = some (g, k)) :
    gStep step acc e =
      match step g k acc.2 with
      | .ok r => .ok (dInsert acc.1 g r.1, r.2)
      | .error err => .error err := by
  unfold gStep
  simp only [h]
  cases step g k acc.2 <;> rfl

/-- The first-occurrence fold preserves freedom from duplicates. -/
theorem firstOccs_aux_nodup :
    ∀ (ns acc : List PyVal), acc.Nodup →
      (ns.foldl (fun ks n => if n ∈ ks then ks else ks ++ [n]) acc).Nodup := by
  intro ns
  induction ns with
  | nil => intro acc h; exact h
  | cons n rest ih =>
    intro acc h
    rw [List.foldl_cons]
    by_cases hn : n ∈ acc
    · rw [if_pos hn]; exact ih acc h
    · rw [if_neg hn]
      apply ih
      simp [List.nodup_append, h, hn]

/-- The first-occurrence sequence has no duplicates. -/
theorem firstOccs_nodup (ns : List PyVal) : (firstOccs ns).Nodup :=
  firstOccs_aux_nodup ns [] (by simp)

/-- Key-sequence variant of `keys_dInsert` phrased with membership. -/
theorem keys_dInsert_mem {α : Type} (d : List (PyVal × α)) (k : PyVal) (v : α) :
    (dInsert d k v).map Prod.fst =
      if k ∈ d.map Prod.fst then d.map Prod.fst else d.map Prod.fst ++ [k] := by
  rw [keys_dInsert]
  by_cases h : dHas d k = true
  · rw [if_pos h, if_pos ((dHas_eq_mem_keys d k).mp h)]
  · rw [if_neg h, if_neg (fun hm => h ((dHas_eq_mem_keys d k).mpr hm))]

/-- Master invariant of the entry loop: when it succeeds, every output
binding satisfies the per-entry property. -/
theorem gFold_spec {β : Type} {P : PyVal × β → Prop}
    (step : PyVal → PyVal → ℕ → Except PyErr (β × ℕ))
    (hP : ∀ e g k s r, extractGenre e = some (g, k) → step g k s = .ok r → P (g, r.1)) :
    ∀ (entries : List PyVal) (acc out : List (PyVal × β) × ℕ),
      List.foldlM (gStep step) acc entries = .ok out →
      (∀ p ∈ acc.1, P p) → ∀ p ∈ out.1, P p := by
  intro entries
  induction entries with
  | nil =>
    intro acc out h hacc
    rw [gFold_nil] at h
    injection h with h
    subst h
    exact hacc
  | cons e rest ih =>
    intro acc out h hacc
    rw [gFold_cons] at h
    cases hext : extractGenre e with
    | none =>
      rw [gStep_skip hext] at h
      exact ih acc out h hacc
    | some p =>
      obtain ⟨gname, kws⟩ := p
      rw [gStep_run hext] at h
      cases hstep : step gname kws acc.2 with
      | error err => rw [hstep] at h; simp at h
      | ok r =>
        rw [hstep] at h
        simp only at h
        exact ih _ out h (dInsert_forall hacc (hP e gname kws acc.2 r hext hstep))

/-- Key ordering of the entry loop: output keys are the accumulator keys
followed by the first occurrences of the analysed entry names. -/
theorem gFold_keys {β : Type} (step : PyVal → PyVal → ℕ → Except PyErr (β × ℕ)) :
    ∀ (entries : List PyVal) (acc out : List (PyVal × β) × ℕ),
      List.foldlM (gStep step) acc entries = .ok out →
      out.1.map Prod.fst =
        (analyzedNames entries).foldl (fun ks n => if n ∈ ks then ks else ks ++ [n])
          (acc.1.map Prod.fst) := by
  intro entries
  induction entries with
  | nil =>
    intro acc out h
    rw [gFold_nil] at h
    injection h with h
    subst h
    rfl
  | cons e rest ih =>
    intro acc out h
    rw [gFold_cons] at h
    cases hext : extractGenre e with
    | none =>
      rw [gStep_skip hext] at h
      rw [ih acc out h]
      simp [analyzedNames, List.filterMap_cons, hext]
    | some p =>
      obtain ⟨gname, kws⟩ := p
      rw [gStep_run hext] at h
      cases hstep : step gname kws acc.2 with
      | error err => rw [hstep] at h; simp at h
      | ok r =>
        rw [hstep] at h
        simp only at h
        rw [ih _ out h]
        simp only [analyzedNames, List.filterMap_cons, hext, Option.map_some', List.foldl_cons]
        rw [keys_dInsert_mem]

/-- The entry loop succeeds when every analysed entry's step does. -/
theorem gFold_ok {β : Type} (step : PyVal → PyVal → ℕ → Except PyErr (β × ℕ)) :
    ∀ (entries : List PyVal) (acc : List (PyVal × β) × ℕ),
      (∀ e ∈ entries, ∀ g k s, extractGenre e = some (g, k) → ∃ r, step g k s = .ok r) →
      ∃ out, List.foldlM (gStep step) acc entries = .ok out := by
  intro entries
  induction entries with
  | nil =>
    intro acc _
    exact ⟨acc, gFold_nil step acc⟩
  | cons e rest ih =>
    intro acc hok
    cases hext : extractGenre e with
    | none =>
      obtain ⟨out, hout⟩ := ih acc (fun e2 he2 => hok e2 (by simp [he2]))
      refine ⟨out, ?_⟩
      rw [gFold_cons, gStep_skip hext]
      exact hout
    | some p =>
      obtain ⟨gname, kws⟩ := p
      obtain ⟨r, hr⟩ := hok e (by simp) gname kws acc.2 hext
      obtain ⟨out, hout⟩ := ih (dInsert acc.1 gname r.1, r.2) (fun e2 he2 => hok e2 (by simp [he2]))
      refine ⟨out, ?_⟩
      rw [gFold_cons, gStep_run hext, hr]
      exact hout

/-- Lift of `gFold_spec` to the full analyser driver. -/
theorem genreFold_forall {β : Type} {P : PyVal × β → Prop}
    (step : PyVal → PyVal → ℕ → Except PyErr (β × ℕ))
    (hP : ∀ e g k s r, extractGenre e = some (g, k) → step g k s = .ok r → P (g, r.1)) :
    ∀ (genres : PyVal) (s : ℕ) (out : List (PyVal × β) × ℕ),
      genreFold step genres s = .ok out → ∀ p ∈ out.1, P p := by
  intro genres s out h
  unfold genreFold at h
  cases hc : convertGenres genres with
  | none =>
    rw [hc] at h
    injection h with h
    subst h
    simp
  | some g =>
    rw [hc] at h
    dsimp only at h
    by_cases hs : isScalarLike g = true
    · rw [if_pos hs] at h
      injection h with h
      subst h
      simp
    · rw [if_neg hs] at h
      cases hit : pyIterate g with
      | error err => rw [hit] at h; simp [Bind.bind, Except.bind] at h
      | ok entries =>
        rw [hit] at h
        simp only [Bind.bind, Except.bind] at h
        exact gFold_spec step hP entries ([], s) out h (by simp)

/-- A string has empty character data exactly when it is the empty
string. -/
theorem string_data_nil_iff {s : String} : s.data = [] ↔ s = "" := by
  constructor
  · intro h
    cases s with
    | mk d =>
      simp at h
      subst h
      rfl
  · intro h
    subst h
    rfl

/-- A string value and the list of its characters have the same Python
truthiness. -/
theorem truthy_str_chars (s : String) :
    (PyVal.str s).truthy = (PyVal.list (s.data.map charStr)).truthy := by
  show decide (s ≠ "") = !(s.data.map charStr).isEmpty
  by_cases h : s = ""
  · subst h
    rfl
  · have hd : s.data ≠ [] := fun hc => h (string_data_nil_iff.mp hc)
    cases hdata : s.data with
    | nil => exact absurd hdata hd
    | cons c cs =>
      simp [h]

/-- The demand per-genre body treats a string keyword field exactly as
the list of its characters. -/
theorem demandGenreStep_str_chars (oracle : PyVal → Option TrendInfo) (g : PyVal)
    (s : String) (st : ℕ) :
    demandGenreStep oracle g (.str s) st
      = demandGenreStep oracle g (.list (s.data.map charStr)) st := by
  have hlen : pyLen (.str s) = pyLen (.list (s.data.map charStr)) := by
    cases s with
    | mk d => simp [pyLen, String.length, List.length_map]
  have htr : (PyVal.str s).truthy = (PyVal.list (s.data.map charStr)).truthy :=
    truthy_str_chars s
  unfold demandGenreStep
  rw [hlen, htr]
  rfl

/-- The competition per-genre body treats a string keyword field exactly
as the list of its characters. -/
theorem compGenreStep_str_chars (sK uK : Bool) (sF uF : PyVal → Except PyErr CompRec)
    (g : PyVal) (s : String) (st : ℕ) :
    compGenreStep sK uK sF uF g (.str s) st
      = compGenreStep sK uK sF uF g (.list (s.data.map charStr)) st := rfl

/-- Evaluation of the analyser driver on a one-entry list payload. -/
theorem genreFold_single {β : Type} (step : PyVal → PyVal → ℕ → Except PyErr (β × ℕ))
    (e : PyVal) (s : ℕ) :
    genreFold step (.list [e]) s =
      match extractGenre e with
      | Option.none => .ok ([], s)
      | some (g, k) =>
        match step g k s with
        | .ok r => .ok ([(g, r.1)], r.2)
        | .error err => .error err := by
  show (List.foldlM (gStep step) ([], s) [e] : Except PyErr (List (PyVal × β) × ℕ)) = _
  rw [gFold_cons]
  cases hext : extractGenre e with
  | none => rw [gStep_skip hext]; rfl
  | some p =>
    obtain ⟨g, k⟩ := p
    rw [gStep_run hext]
    dsimp only
    cases step g k s <;> rfl

/-- Extraction on an entry whose keyword field is a string. -/
theorem extractGenre_strKwEntry (name : PyVal) (s : String) :
    extractGenre (.dict [("ジャンル名", name), ("関連するキーワード例", .str s)]) =
      if name.truthy && (PyVal.str s).truthy then some (name, .str s) else Option.none := by
  have h1 : pyGetD [("ジャンル名", name), ("関連するキーワード例", PyVal.str s)] "ジャンル名" (.str "")
      = name := by
    simp [pyGetD, pyGet?]
  have h2 : pyGetD [("ジャンル名", name), ("関連するキーワード例", PyVal.str s)]
      "関連するキーワード例" (.list []) = .str s := by
    simp [pyGetD, pyGet?, show ("ジャンル名" : String) ≠ "関連するキーワード例" from by decide]
  unfold extractGenre
  dsimp only
  rw [h1, h2]

/-- Extraction on an entry whose keyword field is a list. -/
theorem extractGenre_listKwEntry (name : PyVal) (l : List PyVal) :
    extractGenre (.dict [("ジャンル名", name), ("関連するキーワード例", .list l)]) =
      if name.truthy && (PyVal.list l).truthy then some (name, .list l) else Option.none := by
  have h1 : pyGetD [("ジャンル名", name), ("関連するキーワード例", PyVal.list l)] "ジャンル名" (.str "")
      = name := by
    simp [pyGetD, pyGet?]
  have h2 : pyGetD [("ジャンル名", name), ("関連するキーワード例", PyVal.list l)]
      "関連するキーワード例" (.list []) = .list l := by
    simp [pyGetD, pyGet?, show ("ジャンル名" : String) ≠ "関連するキーワード例" from by decide]
  unfold extractGenre
  dsimp only
  rw [h1, h2]

/-- Claim C2 (amended): the synthetic competition and social generators
reseed from the md5 hash of the keyword, so their results are functions
of the keyword alone — the ambient generator state has no influence.
The demand search-volume mock is NOT such a function (see the
counterexample): it draws from the ambient unseeded generator. -/
theorem C2_seeded_mocks_deterministic (k : PyVal) (s1 s2 : ℕ) :
    mock_competition_data k s1 = mock_competition_data k s2 ∧
    mock_twitter_data k s1 = mock_twitter_data k s2 :=
  ⟨rfl, rfl⟩

/-- Claim C7: a string payload that is not valid JSON makes every
analyser return an empty mapping (the JSONDecodeError is caught by the
conversion try/except and yields the early `return {}`), and the
composite mapping over the empty demand mapping is empty. -/
theorem C7_invalid_json_yields_empty (s : String) (h : jsonLoads s = Option.none)
    (oracle : PyVal → Option TrendInfo) (st : ℕ) (sK uK : Bool)
    (sF uF : PyVal → Except PyErr CompRec) (tK : Bool)
    (tF : PyVal → Except PyErr SocialRec) :
    analyze_demand oracle (.str s) st = .ok ([], st) ∧
    analyze_genre_competition sK uK sF uF (.str s) st = .ok ([], st) ∧
    analyze_genre_social tK tF (.str s) st = .ok ([], st) ∧
    calculate_final_scores [] [] [] = [] := by
  have hconv : convertGenres (.str s) = Option.none := by
    unfold convertGenres
    dsimp only
    rw [h]
  have hg : ∀ (β : Type) (step : PyVal → PyVal → ℕ → Except PyErr (β × ℕ)),
      genreFold step (.str s) st = .ok ([], st) := by
    intro β step
    unfold genreFold
    rw [hconv]
  exact ⟨hg _ _, hg _ _, hg _ _, rfl⟩

/-- Claim C8 (amended): the synthetic competition difficulty is the
clamp of base + commonFactor − lengthFactor to [0,100] (the reported
難易度 being that value rounded to one decimal, still in [0,100]), with
base a seeded draw in [0,100); but the competitor count is the Python
int() TRUNCATION of difficulty×1000 + Uniform(0,10000) — not the
rounding the claim states (see the counterexample) — and it is a
non-negative integer. -/
theorem C8_mock_competition_formula (k : String) :
    0 ≤ compBaseDraw k ∧ compBaseDraw k < 100 ∧
    0 ≤ compNoiseDraw k ∧ compNoiseDraw k < 10000 ∧
    0 ≤ compClampedDifficulty k ∧ compClampedDifficulty k ≤ 100 ∧
    (mock_competition_data_core k).1.difficulty = pyRound1 (compClampedDifficulty k) ∧
    0 ≤ (mock_competition_data_core k).1.difficulty ∧
    (mock_competition_data_core k).1.difficulty ≤ 100 ∧
    (mock_competition_data_core k).1.competitors =
      pyInt (compClampedDifficulty k * 1000 + compNoiseDraw k) ∧
    0 ≤ (mock_competition_data_core k).1.competitors := by
  have hb := randUniform_bounds (by norm_num : (0:ℚ) < 100) (randSeed (md5Int k))
  have hn := randUniform_bounds (by norm_num : (0:ℚ) < 10000)
    ((randUniform 0 100 (randSeed (md5Int k))).2)
  have hcl : 0 ≤ compClampedDifficulty k ∧ compClampedDifficulty k ≤ 100 :=
    ⟨le_min (by norm_num) (le_max_left 0 _), min_le_left _ _⟩
  have hdiff : (mock_competition_data_core k).1.difficulty = pyRound1 (compClampedDifficulty k) :=
    rfl
  have hcomp : (mock_competition_data_core k).1.competitors =
      pyInt (compClampedDifficulty k * 1000 + compNoiseDraw k) := rfl
  have hr := pyRound1_mem hcl.1 hcl.2
  refine ⟨hb.1, hb.2, hn.1, hn.2, hcl.1, hcl.2, hdiff, ?_, ?_, hcomp, ?_⟩
  · rw [hdiff]; exact hr.1
  · rw [hdiff]; exact hr.2
  · rw [hcomp]
    apply pyInt_nonneg
    have h1 : (0:ℚ) ≤ compClampedDifficulty k * 1000 := mul_nonneg hcl.1 (by norm_num)
    have h2 : (0:ℚ) ≤ compNoiseDraw k := hn.1
    linarith

/-- Claim C10: a non-empty string in the 関連するキーワード例 field is
not skipped and not treated as one keyword: both the demand and the
competition analysers behave exactly as if the field held the list of
the string's characters (each character analysed as its own keyword,
the per-keyword averages dividing by the string's length), and the
entry is analysed — its name keys the one-entry output. -/
theorem C10_string_keywords_iterate_chars (name : PyVal) (s : String)
    (oracle : PyVal → Option TrendInfo) (st : ℕ) (sK uK : Bool)
    (sF uF : PyVal → Except PyErr CompRec) :
    analyze_demand oracle (strKwPayload name s) st
      = analyze_demand oracle (listKwPayload name s) st ∧
    analyze_genre_competition sK uK sF uF (strKwPayload name s) st
      = analyze_genre_competition sK uK sF uF (listKwPayload name s) st ∧
    (name.truthy = true → s ≠ "" →
      ∀ out, analyze_demand oracle (strKwPayload name s) st = .ok out →
        out.1.map Prod.fst = [name]) := by
  have hES := extractGenre_strKwEntry name s
  have hEL := extractGenre_listKwEntry name (s.data.map charStr)
  have htr := truthy_str_chars s
  have hcondeq : (name.truthy && (PyVal.str s).truthy)
      = (name.truthy && (PyVal.list (s.data.map charStr)).truthy) := by rw [htr]
  refine ⟨?_, ?_, ?_⟩
  · show genreFold (demandGenreStep oracle) (.list [_]) st
      = genreFold (demandGenreStep oracle) (.list [_]) st
    rw [genreFold_single, genreFold_single, hES, hEL, ← hcondeq]
    by_cases hc : (name.truthy && (PyVal.str s).truthy) = true
    · rw [if_pos hc, if_pos hc]
      dsimp only
      rw [demandGenreStep_str_chars]
    · rw [if_neg hc, if_neg hc]
  · show genreFold (compGenreStep sK uK sF uF) (.list [_]) st
      = genreFold (compGenreStep sK uK sF uF) (.list [_]) st
    rw [genreFold_single, genreFold_single, hES, hEL, ← hcondeq]
    by_cases hc : (name.truthy && (PyVal.str s).truthy) = true
    · rw [if_pos hc, if_pos hc]
      dsimp only
      rw [compGenreStep_str_chars]
    · rw [if_neg hc, if_neg hc]
  · intro hname hs out hout
    have hcond : (name.truthy && (PyVal.str s).truthy) = true := by
      rw [hname]
      simp [PyVal.truthy, hs]
    rw [show analyze_demand oracle (strKwPayload name s) st
        = genreFold (demandGenreStep oracle) (.list [_]) st from rfl,
      genreFold_single, hES, if_pos hcond] at hout
    dsimp only at hout
    cases hstep : demandGenreStep oracle name (.str s) st with
    | error err => rw [hstep] at hout; simp at hout
    | ok r =>
      rw [hstep] at hout
      dsimp only at hout
      injection hout with hout
      subst hout
      rfl

/-- Fold specification for assignments whose value is a function of the
key alone: values are that function of their key, every folded key is a
member, and existing members persist. -/
theorem foldl_dInsert_keyfun {α : Type} (F : PyVal → α) :
    ∀ (ns : List PyVal) (acc : List (PyVal × α)),
      (∀ p ∈ acc, p.2 = F p.1) →
      (∀ p ∈ ns.foldl (fun acc2 n => dInsert acc2 n (F n)) acc, p.2 = F p.1) ∧
      (∀ n ∈ ns, dHas (ns.foldl (fun acc2 n => dInsert acc2 n (F n)) acc) n = true) := by
  intro ns
  induction ns with
  | nil =>
    intro acc hacc
    exact ⟨hacc, by simp⟩
  | cons n rest ih =>
    intro acc hacc
    rw [List.foldl_cons]
    have hacc2 : ∀ p ∈ dInsert acc n (F n), p.2 = F p.1 := by
      apply dInsert_forall hacc
      rfl
    obtain ⟨i1, i2⟩ := ih (dInsert acc n (F n)) hacc2
    refine ⟨i1, ?_⟩
    intro n2 hn2
    rcases List.mem_cons.mp hn2 with h1 | h2
    · subst h1
      -- membership persists through the rest of the fold
      clear hn2
      have hbase : dHas (dInsert acc n2 (F n2)) n2 = true := dHas_dInsert_self acc n2 (F n2)
      revert hbase
      generalize dInsert acc n2 (F n2) = d0
      intro hbase
      clear hacc hacc2 i1 i2 ih
      induction rest generalizing d0 with
      | nil => exact hbase
      | cons m ms ihr =>
        rw [List.foldl_cons]
        exact ihr _ (dHas_dInsert_mono m (F m) hbase)
    · exact i2 n2 h2

/-- Claim C3: calculate_final_scores applies the 0.4/0.4/0.2 weights
exactly when the genre has a social result, and the exact two-axis
0.5/0.5 formula when it has none — never a zero-weighted three-axis
formula — reading each axis score with default 0. -/
theorem C3_composite_weight_redistribution (dD : List (PyVal × DemandGenre))
    (cD : List (PyVal × CompGenre)) (sD : List (PyVal × SocialGenre))
    (n : PyVal) (h : dHas dD n = true) :
    ∃ fs, dGet? (calculate_final_scores dD cD sD) n = some fs ∧
      fs.demandScore = ((dGet? dD n).map DemandGenre.score).getD 0 ∧
      fs.compScore = ((dGet? cD n).map CompGenre.score).getD 0 ∧
      (dHas sD n = true →
        fs.socialScore = some (((dGet? sD n).map SocialGenre.score).getD 0) ∧
        fs.total = fs.demandScore * 0.4 + fs.compScore * 0.4 +
          (((dGet? sD n).map SocialGenre.score).getD 0) * 0.2) ∧
      (dHas sD n = false →
        fs.socialScore = Option.none ∧
        fs.total = fs.demandScore * 0.5 + fs.compScore * 0.5) := by
  have hcalc : calculate_final_scores dD cD sD
      = (dD.map Prod.fst).foldl (fun acc g => dInsert acc g (finalScoreOf dD cD sD g)) [] := rfl
  obtain ⟨hval, hkeys⟩ := foldl_dInsert_keyfun (finalScoreOf dD cD sD) (dD.map Prod.fst) [] (by simp)
  have hmem : n ∈ dD.map Prod.fst := (dHas_eq_mem_keys dD n).mp h
  have hhas := hkeys n hmem
  have hsome : (dGet? (calculate_final_scores dD cD sD) n).isSome = true := by
    rw [hcalc, dGet?_isSome_eq_dHas]
    exact hhas
  obtain ⟨fs, hfs⟩ := Option.isSome_iff_exists.mp hsome
  obtain ⟨p, hp, hkey, hvp⟩ := dGet?_eq_some_imp hfs
  have hfsF : fs = finalScoreOf dD cD sD n := by
    rw [← hvp]
    rw [hcalc] at hp
    rw [hval p hp, hkey]
  refine ⟨fs, hfs, ?_, ?_, ?_, ?_⟩
  · rw [hfsF]; rfl
  · rw [hfsF]; rfl
  · intro hS
    rw [hfsF]
    unfold finalScoreOf
    simp only [hS]
    exact ⟨rfl, rfl⟩
  · intro hS
    rw [hfsF]
    unfold finalScoreOf
    simp only [hS]
    exact ⟨rfl, rfl⟩

/-- The competition fallback never fails on a string keyword. -/
theorem compFallback_str_ok (attempt : Except PyErr (CompEntry × ℕ)) (k : String) (s : ℕ) :
    ∃ r, compFallback attempt (.str k) s = .ok r := by
  unfold compFallback
  cases attempt with
  | ok r => exact ⟨r, rfl⟩
  | error e => exact ⟨mock_competition_data_core k, rfl⟩

/-- The guarded competition keyword body never fails on a string keyword. -/
theorem compKeywordStep_str_ok (sK uK : Bool) (sF uF : PyVal → Except PyErr CompRec)
    (k : String) (s : ℕ) : ∃ r, compKeywordStep sK uK sF uF (.str k) s = .ok r :=
  compFallback_str_ok _ k s

/-- With a Semrush key configured, a failing Semrush fetch at a string
keyword makes the loop body return exactly the synthetic entry. -/
theorem compKeywordStep_fail (sF uF : PyVal → Except PyErr CompRec) (k : String) (s : ℕ)
    (e : PyErr) (hf : sF (.str k) = .error e) :
    compKeywordStep true false sF uF (.str k) s = .ok (mock_competition_data_core k) := by
  unfold compKeywordStep compFallback mock_competition_data
  rw [hf]
  rfl

/-- The social fallback never fails on a string keyword. -/
theorem socialFallback_str_ok (attempt : Except PyErr (SocialEntry × ℕ)) (k : String) (s : ℕ) :
    ∃ r, socialFallback attempt (.str k) s = .ok r := by
  unfold socialFallback
  cases attempt with
  | ok r => exact ⟨r, rfl⟩
  | error e => exact ⟨mock_twitter_data_core k, rfl⟩

/-- The guarded Twitter keyword body never fails on a string keyword. -/
theorem socialKeywordStep_str_ok (token : Bool) (fetch : PyVal → Except PyErr SocialRec)
    (k : String) (s : ℕ) : ∃ r, socialKeywordStep token fetch (.str k) s = .ok r :=
  socialFallback_str_ok _ k s

/-- With a bearer token configured, a failing Twitter fetch at a string
keyword makes the loop body return exactly the synthetic entry. -/
theorem socialKeywordStep_fail (fetch : PyVal → Except PyErr SocialRec) (k : String) (s : ℕ)
    (e : PyErr) (hf : fetch (.str k) = .error e) :
    socialKeywordStep true fetch (.str k) s = .ok (mock_twitter_data_core k) := by
  unfold socialKeywordStep socialFallback mock_twitter_data
  rw [hf]
  rfl

/-- analyze_competition as a match on the keyword iteration. -/
theorem analyze_competition_eq (sK uK : Bool) (sF uF : PyVal → Except PyErr CompRec)
    (keywords : PyVal) (s : ℕ) :
    analyze_competition sK uK sF uF keywords s =
      match pyIterate keywords with
      | .ok ks => kwFold (compKeywordStep sK uK sF uF) ks ([], s)
      | .error e => .error e := by
  unfold analyze_competition
  cases pyIterate keywords <;> rfl

/-- analyze_twitter_engagement as a match on the keyword iteration. -/
theorem analyze_twitter_engagement_eq (token : Bool) (fetch : PyVal → Except PyErr SocialRec)
    (keywords : PyVal) (s : ℕ) :
    analyze_twitter_engagement token fetch keywords s =
      match pyIterate keywords with
      | .ok ks => kwFold (socialKeywordStep token fetch) ks ([], s)
      | .error e => .error e := by
  unfold analyze_twitter_engagement
  cases pyIterate keywords <;> rfl

/-- Claim C6: with an API key configured, one keyword's external fetch
failing does not abort the keyword loop — both analyzers still succeed
with an entry for every keyword, and the failed keyword is bound to
exactly the synthetic (mock) entry for that keyword. -/
theorem C6_failed_fetch_falls_back (ks : List String) (k : String) (hk : k ∈ ks)
    (sF uF : PyVal → Except PyErr CompRec) (e1 : PyErr) (hf1 : sF (.str k) = .error e1)
    (tF : PyVal → Except PyErr SocialRec) (e2 : PyErr) (hf2 : tF (.str k) = .error e2)
    (s1 s2 : ℕ) :
    (∃ out, analyze_competition true false sF uF (.list (ks.map PyVal.str)) s1 = .ok out ∧
      (∀ k2 ∈ ks, dHas out.1 (PyVal.str k2) = true) ∧
      dGet? out.1 (.str k) = some (mock_competition_data_core k).1) ∧
    (∃ out, analyze_twitter_engagement true tF (.list (ks.map PyVal.str)) s2 = .ok out ∧
      (∀ k2 ∈ ks, dHas out.1 (PyVal.str k2) = true) ∧
      dGet? out.1 (.str k) = some (mock_twitter_data_core k).1) := by
  constructor
  · have hOk : ∀ k2 ∈ ks.map PyVal.str, ∀ st, ∃ r,
        compKeywordStep true false sF uF k2 st = .ok r := by
      intro k2 hk2 st
      obtain ⟨k3, hk3, rfl⟩ := List.mem_map.mp hk2
      exact compKeywordStep_str_ok true false sF uF k3 st
    obtain ⟨out, hout⟩ :=
      kwFold_ok (compKeywordStep true false sF uF) (ks.map PyVal.str) ([], s1) hOk
    have hAC : analyze_competition true false sF uF (.list (ks.map PyVal.str)) s1 = .ok out := by
      rw [analyze_competition_eq]
      exact hout
    obtain ⟨_, _, hall, _, _⟩ := @kwFold_spec CompEntry (fun _ => True)
      (compKeywordStep true false sF uF) (fun _ _ _ _ => trivial)
      (ks.map PyVal.str) ([], s1) out hout (fun _ _ => trivial)
    have hv : ∀ st r, compKeywordStep true false sF uF (.str k) st = .ok r →
        r.1 = (mock_competition_data_core k).1 := by
      intro st r hr
      rw [compKeywordStep_fail sF uF k st e1 hf1] at hr
      injection hr with hr
      rw [← hr]
    have hval := kwFold_value (compKeywordStep true false sF uF) hv (ks.map PyVal.str)
      ([], s1) out hout (Or.inr (List.mem_map_of_mem PyVal.str hk))
    exact ⟨out, hAC, fun k2 hk2 => hall (PyVal.str k2) (List.mem_map_of_mem PyVal.str hk2), hval⟩
  · have hOk : ∀ k2 ∈ ks.map PyVal.str, ∀ st, ∃ r,
        socialKeywordStep true tF k2 st = .ok r := by
      intro k2 hk2 st
      obtain ⟨k3, hk3, rfl⟩ := List.mem_map.mp hk2
      exact socialKeywordStep_str_ok true tF k3 st
    obtain ⟨out, hout⟩ :=
      kwFold_ok (socialKeywordStep true tF) (ks.map PyVal.str) ([], s2) hOk
    have hAT : analyze_twitter_engagement true tF (.list (ks.map PyVal.str)) s2 = .ok out := by
      rw [analyze_twitter_engagement_eq]
      exact hout
    obtain ⟨_, _, hall, _, _⟩ := @kwFold_spec SocialEntry (fun _ => True)
      (socialKeywordStep true tF) (fun _ _ _ _ => trivial)
      (ks.map PyVal.str) ([], s2) out hout (fun _ _ => trivial)
    have hv : ∀ st r, socialKeywordStep true tF (.str k) st = .ok r →
        r.1 = (mock_twitter_data_core k).1 := by
      intro st r hr
      rw [socialKeywordStep_fail tF k st e2 hf2] at hr
      injection hr with hr
      rw [← hr]
    have hval := kwFold_value (socialKeywordStep true tF) hv (ks.map PyVal.str)
      ([], s2) out hout (Or.inr (List.mem_map_of_mem PyVal.str hk))
    exact ⟨out, hAT, fun k2 hk2 => hall (PyVal.str k2) (List.mem_map_of_mem PyVal.str hk2), hval⟩

/-- get_search_volume as a match on the keyword iteration. -/
theorem get_search_volume_eq (keywords : PyVal) (s : ℕ) :
    get_search_volume keywords s =
      match pyIterate keywords with
      | .ok ks => kwFold (fun k s2 => Except.ok (mock_search_volume k s2)) ks ([], s)
      | .error e => .error e := by
  unfold get_search_volume
  cases pyIterate keywords <;> rfl

/-- Inversion of a successful analyze_competition call. -/
theorem analyze_competition_inv {sK uK : Bool} {sF uF : PyVal → Except PyErr CompRec}
    {keywords : PyVal} {s : ℕ} {cd : List (PyVal × CompEntry) × ℕ}
    (h : analyze_competition sK uK sF uF keywords s = .ok cd) :
    ∃ ks, pyIterate keywords = .ok ks ∧
      kwFold (compKeywordStep sK uK sF uF) ks ([], s) = .ok cd := by
  rw [analyze_competition_eq] at h
  cases hit : pyIterate keywords with
  | error e => rw [hit] at h; simp at h
  | ok ks => rw [hit] at h; exact ⟨ks, rfl, h⟩

/-- Inversion of a successful analyze_twitter_engagement call. -/
theorem analyze_twitter_engagement_inv {token : Bool} {tF : PyVal → Except PyErr SocialRec}
    {keywords : PyVal} {s : ℕ} {td : List (PyVal × SocialEntry) × ℕ}
    (h : analyze_twitter_engagement token tF keywords s = .ok td) :
    ∃ ks, pyIterate keywords = .ok ks ∧
      kwFold (socialKeywordStep token tF) ks ([], s) = .ok td := by
  rw [analyze_twitter_engagement_eq] at h
  cases hit : pyIterate keywords with
  | error e => rw [hit] at h; simp at h
  | ok ks => rw [hit] at h; exact ⟨ks, rfl, h⟩

/-- Inversion of a successful get_search_volume call. -/
theorem get_search_volume_inv {keywords : PyVal} {s : ℕ} {sv : List (PyVal × ℕ) × ℕ}
    (h : get_search_volume keywords s = .ok sv) :
    ∃ ks, pyIterate keywords = .ok ks ∧
      kwFold (fun k s2 => Except.ok (mock_search_volume k s2)) ks ([], s) = .ok sv := by
  rw [get_search_volume_eq] at h
  cases hit : pyIterate keywords with
  | error e => rw [hit] at h; simp at h
  | ok ks => rw [hit] at h; exact ⟨ks, rfl, h⟩

/-- Inversion of a successful per-genre competition step. -/
theorem compGenreStep_inv {sK uK : Bool} {sF uF : PyVal → Except PyErr CompRec}
    {g kws : PyVal} {s : ℕ} {r : CompGenre × ℕ}
    (h : compGenreStep sK uK sF uF g kws s = .ok r) :
    ∃ cd, analyze_competition sK uK sF uF kws s = .ok cd ∧
      r = ({ name := g, keywordAnalysis := cd.1, score := compScoreOf cd.1 }, cd.2) := by
  unfold compGenreStep at h
  cases hA : analyze_competition sK uK sF uF kws s with
  | error e => rw [hA] at h; simp [Bind.bind, Except.bind] at h
  | ok cd =>
    rw [hA] at h
    simp only [Bind.bind, Except.bind] at h
    injection h with h
    exact ⟨cd, rfl, h.symm⟩

/-- Inversion of a successful per-genre social step. -/
theorem socialGenreStep_inv {token : Bool} {tF : PyVal → Except PyErr SocialRec}
    {g kws : PyVal} {s : ℕ} {r : SocialGenre × ℕ}
    (h : socialGenreStep token tF g kws s = .ok r) :
    ∃ td, analyze_twitter_engagement token tF kws s = .ok td ∧
      r = ({ name := g, keywordAnalysis := td.1, score := socialScoreOf td.1 }, td.2) := by
  unfold socialGenreStep at h
  cases hA : analyze_twitter_engagement token tF kws s with
  | error e => rw [hA] at h; simp [Bind.bind, Except.bind] at h
  | ok td =>
    rw [hA] at h
    simp only [Bind.bind, Except.bind] at h
    injection h with h
    exact ⟨td, rfl, h.symm⟩

/-- Inversion of a successful per-genre demand step. -/
theorem demandGenreStep_inv {oracle : PyVal → Option TrendInfo} {g kws : PyVal} {s : ℕ}
    {r : DemandGenre × ℕ} (h : demandGenreStep oracle g kws s = .ok r) :
    ∃ trends sv ks n, analyze_trends oracle kws = .ok trends ∧
      get_search_volume kws s = .ok sv ∧ pyIterate kws = .ok ks ∧ pyLen kws = .ok n ∧
      r = ({ name := g, keywordAnalysis := demandKwAnalysis trends sv.1 ks,
             score := demandScoreOf trends sv.1 ks kws.truthy n }, sv.2) := by
  unfold demandGenreStep at h
  cases h1 : analyze_trends oracle kws with
  | error e => rw [h1] at h; simp [Bind.bind, Except.bind] at h
  | ok trends =>
    rw [h1] at h
    simp only [Bind.bind, Except.bind] at h
    cases h2 : get_search_volume kws s with
    | error e => rw [h2] at h; simp at h
    | ok sv =>
      rw [h2] at h
      simp only [Bind.bind, Except.bind] at h
      cases h3 : pyIterate kws with
      | error e => rw [h3] at h; simp at h
      | ok ks =>
        rw [h3] at h
        simp only [Bind.bind, Except.bind] at h
        cases h4 : pyLen kws with
        | error e => rw [h4] at h; simp at h
        | ok n =>
          rw [h4] at h
          simp only [Bind.bind, Except.bind] at h
          injection h with h
          exact ⟨trends, sv, ks, n, rfl, rfl, rfl, rfl, h.symm⟩

/-- A pure keyed fold starting from a non-empty accumulator, or folding a
non-empty key list, yields a non-empty dict. -/
theorem foldl_dInsert_ne_nil {α : Type} (f : PyVal → α) :
    ∀ (ks : List PyVal) (acc : List (PyVal × α)), acc ≠ [] ∨ ks ≠ [] →
      ks.foldl (fun d k => dInsert d k (f k)) acc ≠ [] := by
  intro ks
  induction ks with
  | nil =>
    intro acc h
    rcases h with h | h
    · exact h
    · exact absurd rfl h
  | cons k rest ih =>
    intro acc _
    rw [List.foldl_cons]
    exact ih (dInsert acc k (f k)) (Or.inl (dInsert_ne_nil acc k (f k)))

/-- The per-keyword demand combination of a non-empty keyword list is
non-empty. -/
theorem demandKwAnalysis_ne_nil (trends : List (PyVal × TrendInfo))
    (sv : List (PyVal × ℕ)) {ks : List PyVal} (h : ks ≠ []) :
    demandKwAnalysis trends sv ks ≠ [] :=
  foldl_dInsert_ne_nil (fun k => (dGetD trends k ⟨0, "不明"⟩, dGetD sv k 0)) ks [] (Or.inr h)

/-- A truthy value is not the empty string. -/
theorem truthy_ne_empty_str {v : PyVal} (ht : v.truthy = true) : v ≠ PyVal.str "" := by
  intro hc
  subst hc
  simp [PyVal.truthy] at ht

/-- Claim C9: entries with a falsy (empty) name or falsy (empty) keyword
field are dropped before analysis — in all three analyzers, no output key
is the empty string and every analyzed genre carries a non-empty
per-keyword analysis. -/
theorem C9_falsy_entries_dropped :
    (∀ (oracle : PyVal → Option TrendInfo) (genres : PyVal) (s : ℕ)
       (out : List (PyVal × DemandGenre) × ℕ),
      analyze_demand oracle genres s = .ok out →
      ∀ p ∈ out.1, p.1 ≠ PyVal.str "" ∧ p.2.keywordAnalysis ≠ []) ∧
    (∀ (sK uK : Bool) (sF uF : PyVal → Except PyErr CompRec) (genres : PyVal) (s : ℕ)
       (out : List (PyVal × CompGenre) × ℕ),
      analyze_genre_competition sK uK sF uF genres s = .ok out →
      ∀ p ∈ out.1, p.1 ≠ PyVal.str "" ∧ p.2.keywordAnalysis ≠ []) ∧
    (∀ (token : Bool) (tF : PyVal → Except PyErr SocialRec) (genres : PyVal) (s : ℕ)
       (out : List (PyVal × SocialGenre) × ℕ),
      analyze_genre_social token tF genres s = .ok out →
      ∀ p ∈ out.1, p.1 ≠ PyVal.str "" ∧ p.2.keywordAnalysis ≠ []) := by
  refine ⟨?_, ?_, ?_⟩
  · intro oracle genres s out hrun
    refine @genreFold_forall DemandGenre
      (fun p => p.1 ≠ PyVal.str "" ∧ p.2.keywordAnalysis ≠ [])
      (demandGenreStep oracle) ?_ genres s out hrun
    intro e g k s2 r hext hstep
    obtain ⟨hgt, hkt⟩ := extractGenre_some_truthy hext
    obtain ⟨trends, sv, ks, n, _, _, h3, _, h5⟩ := demandGenreStep_inv hstep
    refine ⟨truthy_ne_empty_str hgt, ?_⟩
    rw [h5]
    exact demandKwAnalysis_ne_nil trends sv.1 (truthy_iterate_ne_nil hkt h3)
  · intro sK uK sF uF genres s out hrun
    refine @genreFold_forall CompGenre
      (fun p => p.1 ≠ PyVal.str "" ∧ p.2.keywordAnalysis ≠ [])
      (compGenreStep sK uK sF uF) ?_ genres s out hrun
    intro e g k s2 r hext hstep
    obtain ⟨hgt, hkt⟩ := extractGenre_some_truthy hext
    obtain ⟨cd, hA, h5⟩ := compGenreStep_inv hstep
    obtain ⟨ks, hit, hfold⟩ := analyze_competition_inv hA
    obtain ⟨_, _, _, _, i5⟩ := @kwFold_spec CompEntry (fun _ => True)
      (compKeywordStep sK uK sF uF) (fun _ _ _ _ => trivial) ks ([], s2) cd hfold
      (fun _ _ => trivial)
    refine ⟨truthy_ne_empty_str hgt, ?_⟩
    rw [h5]
    exact i5 (truthy_iterate_ne_nil hkt hit)
  · intro token tF genres s out hrun
    refine @genreFold_forall SocialGenre
      (fun p => p.1 ≠ PyVal.str "" ∧ p.2.keywordAnalysis ≠ [])
      (socialGenreStep token tF) ?_ genres s out hrun
    intro e g k s2 r hext hstep
    obtain ⟨hgt, hkt⟩ := extractGenre_some_truthy hext
    obtain ⟨td, hA, h5⟩ := socialGenreStep_inv hstep
    obtain ⟨ks, hit, hfold⟩ := analyze_twitter_engagement_inv hA
    obtain ⟨_, _, _, _, i5⟩ := @kwFold_spec SocialEntry (fun _ => True)
      (socialKeywordStep token tF) (fun _ _ _ _ => trivial) ks ([], s2) td hfold
      (fun _ _ => trivial)
    refine ⟨truthy_ne_empty_str hgt, ?_⟩
    rw [h5]
    exact i5 (truthy_iterate_ne_nil hkt hit)

/-- A good keyword field iterates to a list of strings. -/
theorem kwsGood_iterate {kws : PyVal} (hg : kwsGood kws = true) :
    ∃ ks, pyIterate kws = .ok ks ∧ ∀ x ∈ ks, ∃ s2, x = PyVal.str s2 := by
  cases kws with
  | str s =>
    refine ⟨s.data.map charStr, rfl, ?_⟩
    intro x hx
    obtain ⟨c, _, rfl⟩ := List.mem_map.mp hx
    exact ⟨String.mk [c], rfl⟩
  | list l =>
    refine ⟨l, rfl, ?_⟩
    intro x hx
    have hx2 := List.all_eq_true.mp hg x hx
    cases x with
    | str s2 => exact ⟨s2, rfl⟩
    | none => simp at hx2
    | bool b => simp at hx2
    | int n => simp at hx2
    | float q => simp at hx2
    | list l2 => simp at hx2
    | dict d => simp at hx2
  | none => simp [kwsGood] at hg
  | bool b => simp [kwsGood] at hg
  | int n => simp [kwsGood] at hg
  | float q => simp [kwsGood] at hg
  | dict d => simp [kwsGood] at hg

/-- analyze_trends succeeds on every good keyword field. -/
theorem kwsGood_trends_ok (oracle : PyVal → Option TrendInfo) {kws : PyVal}
    (hg : kwsGood kws = true) : ∃ t, analyze_trends oracle kws = .ok t := by
  cases kws with
  | str s => exact ⟨_, rfl⟩
  | list l => exact ⟨_, rfl⟩
  | none => simp [kwsGood] at hg
  | bool b => simp [kwsGood] at hg
  | int n => simp [kwsGood] at hg
  | float q => simp [kwsGood] at hg
  | dict d => simp [kwsGood] at hg

/-- The per-genre demand step succeeds on every good keyword field. -/
theorem demandGenreStep_ok (oracle : PyVal → Option TrendInfo) (g kws : PyVal) (s : ℕ)
    (hg : kwsGood kws = true) : ∃ r, demandGenreStep oracle g kws s = .ok r := by
  obtain ⟨t, ht⟩ := kwsGood_trends_ok oracle hg
  obtain ⟨ks, hks, _⟩ := kwsGood_iterate hg
  obtain ⟨sv, hsv⟩ := kwFold_ok (fun k s2 => Except.ok (mock_search_volume k s2)) ks ([], s)
    (fun k _ s2 => ⟨mock_search_volume k s2, rfl⟩)
  have hgsv : get_search_volume kws s = .ok sv := by
    rw [get_search_volume_eq, hks]
    exact hsv
  have hn : pyLen kws = .ok ks.length := pyLen_eq_iterate_length hks
  refine ⟨({ name := g, keywordAnalysis := demandKwAnalysis t sv.1 ks,
             score := demandScoreOf t sv.1 ks kws.truthy ks.length }, sv.2), ?_⟩
  unfold demandGenreStep
  rw [ht, hgsv, hks, hn]
  rfl

/-- analyze_competition succeeds on every good keyword field. -/
theorem analyze_competition_ok (sK uK : Bool) (sF uF : PyVal → Except PyErr CompRec)
    {kws : PyVal} (s : ℕ) (hg : kwsGood kws = true) :
    ∃ cd, analyze_competition sK uK sF uF kws s = .ok cd := by
  obtain ⟨ks, hks, hstr⟩ := kwsGood_iterate hg
  have hok : ∀ k ∈ ks, ∀ s2, ∃ r, compKeywordStep sK uK sF uF k s2 = .ok r := by
    intro k hk s2
    obtain ⟨k2, rfl⟩ := hstr k hk
    exact compKeywordStep_str_ok sK uK sF uF k2 s2
  obtain ⟨cd, hcd⟩ := kwFold_ok (compKeywordStep sK uK sF uF) ks ([], s) hok
  refine ⟨cd, ?_⟩
  rw [analyze_competition_eq, hks]
  exact hcd

/-- The per-genre competition step succeeds on every good keyword field. -/
theorem compGenreStep_ok (sK uK : Bool) (sF uF : PyVal → Except PyErr CompRec)
    (g kws : PyVal) (s : ℕ) (hg : kwsGood kws = true) :
    ∃ r, compGenreStep sK uK sF uF g kws s = .ok r := by
  obtain ⟨cd, hcd⟩ := analyze_competition_ok sK uK sF uF s hg
  refine ⟨({ name := g, keywordAnalysis := cd.1, score := compScoreOf cd.1 }, cd.2), ?_⟩
  unfold compGenreStep
  rw [hcd]
  rfl

/-- analyze_twitter_engagement succeeds on every good keyword field. -/
theorem analyze_twitter_engagement_ok (token : Bool) (tF : PyVal → Except PyErr SocialRec)
    {kws : PyVal} (s : ℕ) (hg : kwsGood kws = true) :
    ∃ td, analyze_twitter_engagement token tF kws s = .ok td := by
  obtain ⟨ks, hks, hstr⟩ := kwsGood_iterate hg
  have hok : ∀ k ∈ ks, ∀ s2, ∃ r, socialKeywordStep token tF k s2 = .ok r := by
    intro k hk s2
    obtain ⟨k2, rfl⟩ := hstr k hk
    exact socialKeywordStep_str_ok token tF k2 s2
  obtain ⟨td, htd⟩ := kwFold_ok (socialKeywordStep token tF) ks ([], s) hok
  refine ⟨td, ?_⟩
  rw [analyze_twitter_engagement_eq, hks]
  exact htd

/-- The per-genre social step succeeds on every good keyword field. -/
theorem socialGenreStep_ok (token : Bool) (tF : PyVal → Except PyErr SocialRec)
    (g kws : PyVal) (s : ℕ) (hg : kwsGood kws = true) :
    ∃ r, socialGenreStep token tF g kws s = .ok r := by
  obtain ⟨td, htd⟩ := analyze_twitter_engagement_ok token tF s hg
  refine ⟨({ name := g, keywordAnalysis := td.1, score := socialScoreOf td.1 }, td.2), ?_⟩
  unfold socialGenreStep
  rw [htd]
  rfl

/-- The driver on a payload whose conversion step early-returns. -/
theorem genreFold_nonePayload {β : Type} (step : PyVal → PyVal → ℕ → Except PyErr (β × ℕ))
    {p : PyVal} (hc : convertGenres p = Option.none) (s : ℕ) :
    genreFold step p s = .ok ([], s) := by
  unfold genreFold
  simp only [hc]

/-- The driver on a payload that converts to a rejected scalar. -/
theorem genreFold_scalar {β : Type} (step : PyVal → PyVal → ℕ → Except PyErr (β × ℕ))
    {p g : PyVal} (hc : convertGenres p = some g) (hsc : isScalarLike g = true) (s : ℕ) :
    genreFold step p s = .ok ([], s) := by
  unfold genreFold
  simp only [hc]
  rw [if_pos hsc]

/-- The driver on a payload that converts to an iterated value. -/
theorem genreFold_iter {β : Type} (step : PyVal → PyVal → ℕ → Except PyErr (β × ℕ))
    {p g : PyVal} (hc : convertGenres p = some g) (hsc : isScalarLike g = false) (s : ℕ) :
    genreFold step p s =
      match pyIterate g with
      | .ok entries => List.foldlM (gStep step) ([], s) entries
      | .error e => .error e := by
  unfold genreFold
  simp only [hc]
  rw [if_neg (by rw [hsc]; exact Bool.false_ne_true)]
  cases pyIterate g <;> rfl

/-- A string entry's extracted keyword field is the singleton list holding
the entry itself. -/
theorem extractGenre_str_inv {s2 : String} {g k : PyVal}
    (h : extractGenre (.str s2) = some (g, k)) : k = .list [.str s2] := by
  simp only [extractGenre] at h
  split_ifs at h
  injection h with h1
  injection h1 with hg hk
  exact hk.symm

/-- The driver succeeds on every safe payload whenever the per-genre step
succeeds on good keyword fields. -/
theorem genreFold_ok_of_safe {β : Type} (step : PyVal → PyVal → ℕ → Except PyErr (β × ℕ))
    (hstep : ∀ g kws s2, kwsGood kws = true → ∃ r, step g kws s2 = .ok r)
    (p : PyVal) (s : ℕ) (hs : safePayload p = true) :
    ∃ out, genreFold step p s = .ok out := by
  unfold safePayload at hs
  cases hc : convertGenres p with
  | none => exact ⟨([], s), genreFold_nonePayload step hc s⟩
  | some g =>
    rw [hc] at hs
    dsimp only at hs
    by_cases hsc : isScalarLike g = true
    · exact ⟨([], s), genreFold_scalar step hc hsc s⟩
    · have hscf : isScalarLike g = false := Bool.eq_false_iff.mpr hsc
      rw [if_neg hsc] at hs
      cases g with
      | list l =>
        have hok : ∀ e ∈ l, ∀ g2 k2 s2, extractGenre e = some (g2, k2) →
            ∃ r, step g2 k2 s2 = .ok r := by
          intro e he g2 k2 s2 hext
          have hge := List.all_eq_true.mp hs e he
          unfold goodEntry at hge
          rw [hext] at hge
          exact hstep g2 k2 s2 hge
        obtain ⟨out, hout⟩ := gFold_ok step l ([], s) hok
        refine ⟨out, ?_⟩
        rw [genreFold_iter step hc hscf s]
        exact hout
      | dict d =>
        have hok : ∀ e ∈ d.map (fun q => PyVal.str q.1), ∀ g2 k2 s2,
            extractGenre e = some (g2, k2) → ∃ r, step g2 k2 s2 = .ok r := by
          intro e he g2 k2 s2 hext
          obtain ⟨q, _, rfl⟩ := List.mem_map.mp he
          have hk2 := extractGenre_str_inv hext
          subst hk2
          exact hstep g2 (.list [.str q.1]) s2 (by simp [kwsGood])
        obtain ⟨out, hout⟩ := gFold_ok step (d.map (fun q => PyVal.str q.1)) ([], s) hok
        refine ⟨out, ?_⟩
        rw [genreFold_iter step hc hscf s]
        exact hout
      | none => simp at hs
      | bool b => exact absurd (by simp [isScalarLike] : isScalarLike (PyVal.bool b) = true) hsc
      | int n => exact absurd (by simp [isScalarLike] : isScalarLike (PyVal.int n) = true) hsc
      | float q => exact absurd (by simp [isScalarLike] : isScalarLike (PyVal.float q) = true) hsc
      | str s2 => exact absurd (by simp [isScalarLike] : isScalarLike (PyVal.str s2) = true) hsc

/-- Claim C4 (amended): the conversion step itself never raises, and on
every safe payload — any payload whose converted form is not iterated as
None and whose analysed entries carry string or list-of-string keyword
fields — all three analyzers return without an uncaught exception;
unrecoverable shapes yield the empty mapping.  (The unamended claim is
refuted separately: a None payload raises TypeError.) -/
theorem C4_safe_normalization (p : PyVal) (hs : safePayload p = true) :
    (∀ (oracle : PyVal → Option TrendInfo) (s : ℕ), ∃ r, analyze_demand oracle p s = .ok r) ∧
    (∀ (sK uK : Bool) (sF uF : PyVal → Except PyErr CompRec) (s : ℕ),
      ∃ r, analyze_genre_competition sK uK sF uF p s = .ok r) ∧
    (∀ (token : Bool) (tF : PyVal → Except PyErr SocialRec) (s : ℕ),
      ∃ r, analyze_genre_social token tF p s = .ok r) := by
  refine ⟨?_, ?_, ?_⟩
  · intro oracle s
    exact genreFold_ok_of_safe (demandGenreStep oracle)
      (fun g kws s2 hg => demandGenreStep_ok oracle g kws s2 hg) p s hs
  · intro sK uK sF uF s
    exact genreFold_ok_of_safe (compGenreStep sK uK sF uF)
      (fun g kws s2 hg => compGenreStep_ok sK uK sF uF g kws s2 hg) p s hs
  · intro token tF s
    exact genreFold_ok_of_safe (socialGenreStep token tF)
      (fun g kws s2 hg => socialGenreStep_ok token tF g kws s2 hg) p s hs

/-- On a list payload, the output keys of the shared driver are the first
occurrences of the analysed entry names, in input order. -/
theorem genreFold_list_keys {β : Type} (step : PyVal → PyVal → ℕ → Except PyErr (β × ℕ))
    (l : List PyVal) (s : ℕ) (out : List (PyVal × β) × ℕ)
    (h : genreFold step (.list l) s = .ok out) :
    out.1.map Prod.fst = firstOccs (analyzedNames l) := by
  have hc : convertGenres (.list l) = some (.list l) := rfl
  have hsc : isScalarLike (.list l) = false := rfl
  rw [genreFold_iter step hc hsc s] at h
  have hk := gFold_keys step l ([], s) out h
  rw [hk]
  rfl

/-- Claim C5 (amended): on a list payload each analyzer's output keys are
exactly the first occurrences of the analysed entry names in input order,
with no duplicates — so two valid entries sharing a name do NOT both
appear: the mapping keyed by name collapses duplicates inside the
analyzer itself (last write wins), not merely in downstream consumers.
(The unamended claim is refuted separately on a concrete two-entry
payload.) -/
theorem C5_duplicate_names_collapse :
    (∀ (oracle : PyVal → Option TrendInfo) (l : List PyVal) (s : ℕ)
       (out : List (PyVal × DemandGenre) × ℕ),
      analyze_demand oracle (.list l) s = .ok out →
      out.1.map Prod.fst = firstOccs (analyzedNames l) ∧ (out.1.map Prod.fst).Nodup) ∧
    (∀ (sK uK : Bool) (sF uF : PyVal → Except PyErr CompRec) (l : List PyVal) (s : ℕ)
       (out : List (PyVal × CompGenre) × ℕ),
      analyze_genre_competition sK uK sF uF (.list l) s = .ok out →
      out.1.map Prod.fst = firstOccs (analyzedNames l) ∧ (out.1.map Prod.fst).Nodup) := by
  constructor
  · intro oracle l s out h
    have hk := genreFold_list_keys (demandGenreStep oracle) l s out h
    refine ⟨hk, ?_⟩
    rw [hk]
    exact firstOccs_nodup (analyzedNames l)
  · intro sK uK sF uF l s out h
    have hk := genreFold_list_keys (compGenreStep sK uK sF uF) l s out h
    refine ⟨hk, ?_⟩
    rw [hk]
    exact firstOccs_nodup (analyzedNames l)

/-- With no provider key configured, a successful competition loop body
can only be the synthetic entry of a string keyword. -/
theorem compKeywordStep_nokeys_mock {sF uF : PyVal → Except PyErr CompRec} {k : PyVal}
    {s : ℕ} {r : CompEntry × ℕ} (h : compKeywordStep false false sF uF k s = .ok r) :
    ∃ k2, k = PyVal.str k2 ∧ r = mock_competition_data_core k2 := by
  cases k with
  | str k2 =>
    have he : compKeywordStep false false sF uF (.str k2) s
        = .ok (mock_competition_data_core k2) := rfl
    rw [he] at h
    injection h with h
    exact ⟨k2, rfl, h.symm⟩
  | none =>
    have he : compKeywordStep false false sF uF PyVal.none s
        = .error .attributeError := rfl
    rw [he] at h
    cases h
  | bool b =>
    have he : compKeywordStep false false sF uF (.bool b) s
        = .error .attributeError := rfl
    rw [he] at h
    cases h
  | int n =>
    have he : compKeywordStep false false sF uF (.int n) s
        = .error .attributeError := rfl
    rw [he] at h
    cases h
  | float q =>
    have he : compKeywordStep false false sF uF (.float q) s
        = .error .attributeError := rfl
    rw [he] at h
    cases h
  | list l =>
    have he : compKeywordStep false false sF uF (.list l) s
        = .error .attributeError := rfl
    rw [he] at h
    cases h
  | dict d =>
    have he : compKeywordStep false false sF uF (.dict d) s
        = .error .attributeError := rfl
    rw [he] at h
    cases h

/-- With no bearer token configured, a successful Twitter loop body can
only be the synthetic entry of a string keyword. -/
theorem socialKeywordStep_notoken_mock {tF : PyVal → Except PyErr SocialRec} {k : PyVal}
    {s : ℕ} {r : SocialEntry × ℕ} (h : socialKeywordStep false tF k s = .ok r) :
    ∃ k2, k = PyVal.str k2 ∧ r = mock_twitter_data_core k2 := by
  cases k with
  | str k2 =>
    have he : socialKeywordStep false tF (.str k2) s
        = .ok (mock_twitter_data_core k2) := rfl
    rw [he] at h
    injection h with h
    exact ⟨k2, rfl, h.symm⟩
  | none =>
    have he : socialKeywordStep false tF PyVal.none s = .error .attributeError := rfl
    rw [he] at h
    cases h
  | bool b =>
    have he : socialKeywordStep false tF (.bool b) s = .error .attributeError := rfl
    rw [he] at h
    cases h
  | int n =>
    have he : socialKeywordStep false tF (.int n) s = .error .attributeError := rfl
    rw [he] at h
    cases h
  | float q =>
    have he : socialKeywordStep false tF (.float q) s = .error .attributeError := rfl
    rw [he] at h
    cases h
  | list l =>
    have he : socialKeywordStep false tF (.list l) s = .error .attributeError := rfl
    rw [he] at h
    cases h
  | dict d =>
    have he : socialKeywordStep false tF (.dict d) s = .error .attributeError := rfl
    rw [he] at h
    cases h

/-- The synthetic competition difficulty lies in [0,100]. -/
theorem mock_comp_difficulty_mem (k : String) :
    0 ≤ (mock_competition_data_core k).1.difficulty ∧
      (mock_competition_data_core k).1.difficulty ≤ 100 := by
  have hd : (mock_competition_data_core k).1.difficulty
      = pyRound1 (compClampedDifficulty k) := rfl
  rw [hd]
  have h1 : 0 ≤ compClampedDifficulty k := by
    unfold compClampedDifficulty
    exact le_min (by norm_num) (le_max_left _ _)
  have h2 : compClampedDifficulty k ≤ 100 := min_le_left _ _
  exact pyRound1_mem h1 h2

/-- When every entry is synthetic (keyed 難易度, so the キーワード難易度
lookup defaults to 0 for each), the ease score is exactly 100; it is also
100 for an empty mapping. -/
theorem compScoreOf_all_mock {cd : List (PyVal × CompEntry)}
    (h : ∀ p ∈ cd, p.2.source = "モックデータ") : compScoreOf cd = 100 := by
  unfold compScoreOf
  by_cases hc : cd.isEmpty = true
  · rw [if_pos hc]
    norm_num
  · rw [if_neg hc]
    have hz : (cd.map (fun p =>
        if p.2.source = "モックデータ" then 0 else p.2.difficulty)).sum = (0 : ℚ) := by
      apply List.sum_eq_zero
      intro x hx
      obtain ⟨p, hp, rfl⟩ := List.mem_map.mp hx
      rw [if_pos (h p hp)]
    rw [hz]
    norm_num

/-- The sentiment-to-score mapping lies in [-1,1]. -/
theorem sentiment_map_mem (x : String) :
    -1 ≤ sentiment_map x ∧ sentiment_map x ≤ 1 := by
  unfold sentiment_map
  split_ifs <;> norm_num

/-- The synthetic Twitter entry has a non-negative tweet count and
engagement rate. -/
theorem mock_twitter_entry_bounds (k : String) :
    0 ≤ (mock_twitter_data_core k).1.tweetCount ∧
      0 ≤ (mock_twitter_data_core k).1.engagementRate := by
  constructor
  · have h1 : (mock_twitter_data_core k).1.tweetCount
        = ((randint 50 5000 (randSeed (md5Int k))).1 : ℤ) *
          (if common_topics.any (fun t => strHasSub k t) then 3 else 1) := rfl
    rw [h1]
    apply mul_nonneg
    · exact_mod_cast Nat.zero_le _
    · split_ifs <;> norm_num
  · have h2 : (mock_twitter_data_core k).1.engagementRate
        = pyRound2 (randUniform (1 / 2) 10 (randint 50 5000 (randSeed (md5Int k))).2).1 := rfl
    rw [h2]
    apply pyRound2_nonneg
    have hb := randUniform_bounds (show (1 : ℚ) / 2 < 10 by norm_num)
      (randint 50 5000 (randSeed (md5Int k))).2
    linarith [hb.1]

/-- A 0.3/0.5/0.2-weighted combination of values in [0,100] lies in
[0,100]. -/
theorem weighted_mem {t e ss : ℚ} (ht : 0 ≤ t) (ht2 : t ≤ 100) (he : 0 ≤ e) (he2 : e ≤ 100)
    (hs : 0 ≤ ss) (hs2 : ss ≤ 100) :
    0 ≤ t * 0.3 + e * 0.5 + ss * 0.2 ∧ t * 0.3 + e * 0.5 + ss * 0.2 ≤ 100 := by
  constructor <;> nlinarith

/-- The SNS score lies in [0,100] when every tweet count and engagement
rate is non-negative. -/
theorem socialScoreOf_mem {td : List (PyVal × SocialEntry)}
    (h : ∀ p ∈ td, 0 ≤ p.2.tweetCount ∧ 0 ≤ p.2.engagementRate) :
    0 ≤ socialScoreOf td ∧ socialScoreOf td ≤ 100 := by
  unfold socialScoreOf
  dsimp only
  by_cases hc : td.isEmpty = true
  · rw [if_pos hc, if_pos hc, if_pos hc]
    norm_num [min_def]
  · rw [if_neg hc, if_neg hc, if_neg hc]
    have hne : td ≠ [] := by simpa [List.isEmpty_iff] using hc
    have hlen : (0 : ℚ) ≤ (td.length : ℚ) := by positivity
    have ht0 : (0 : ℚ) ≤ (td.map (fun p => (p.2.tweetCount : ℚ))).sum / (td.length : ℚ) := by
      apply div_nonneg ?_ hlen
      apply List.sum_nonneg
      intro x hx
      obtain ⟨p, hp, rfl⟩ := List.mem_map.mp hx
      exact_mod_cast (h p hp).1
    have he0 : (0 : ℚ) ≤ (td.map (fun p => p.2.engagementRate)).sum / (td.length : ℚ) := by
      apply div_nonneg ?_ hlen
      apply List.sum_nonneg
      intro x hx
      obtain ⟨p, hp, rfl⟩ := List.mem_map.mp hx
      exact (h p hp).2
    have hmne : td.map (fun p => sentiment_map p.2.sentiment) ≠ [] := by
      intro hx
      rw [List.map_eq_nil_iff] at hx
      exact hne hx
    have hsb := avg_mem hmne
      (fun x hx => by
        obtain ⟨p, hp, rfl⟩ := List.mem_map.mp hx
        exact (sentiment_map_mem p.2.sentiment).1)
      (fun x hx => by
        obtain ⟨p, hp, rfl⟩ := List.mem_map.mp hx
        exact (sentiment_map_mem p.2.sentiment).2)
    rw [List.length_map] at hsb
    apply weighted_mem
    · exact le_min (by norm_num) (by positivity)
    · exact min_le_left _ _
    · exact le_min (by norm_num) (by positivity)
    · exact min_le_left _ _
    · linarith [hsb.1]
    · linarith [hsb.2]

/-- With no trend data available, the trend fold is empty. -/
theorem trendFold_none : ∀ ks : List PyVal, trendFold (fun _ => Option.none) ks = [] := by
  have haux : ∀ (ks : List PyVal) (acc : List (PyVal × TrendInfo)),
      ks.foldl (fun acc k =>
        match (fun _ => (Option.none : Option TrendInfo)) k with
        | some t => dInsert acc k t
        | Option.none => acc) acc = acc := by
    intro ks
    induction ks with
    | nil => intro acc; rfl
    | cons k rest ih =>
      intro acc
      rw [List.foldl_cons]
      exact ih acc
  intro ks
  exact haux ks []

/-- With empty trend data, every analyzed genre's demand score is at
least 250 — half of the minimum synthetic monthly volume. -/
theorem demandScoreOf_floor {sv : List (PyVal × ℕ)} {ks : List PyVal}
    (hkne : ks ≠ []) (hmem : ∀ k ∈ ks, dHas sv k = true)
    (hval : ∀ p ∈ sv, 500 ≤ p.2) :
    250 ≤ demandScoreOf [] sv ks true ks.length := by
  unfold demandScoreOf
  dsimp only
  rw [if_pos rfl, if_pos rfl, if_pos rfl]
  have hi : (ks.map (fun k =>
      ((dGet? ([] : List (PyVal × TrendInfo)) k).map TrendInfo.interest).getD 0)).sum = 0 := by
    apply List.sum_eq_zero
    intro x hx
    obtain ⟨k, hk, rfl⟩ := List.mem_map.mp hx
    rfl
  have htf : ks.filter (fun k =>
      decide (((dGet? ([] : List (PyVal × TrendInfo)) k).map TrendInfo.trend).getD ""
        = "上昇")) = [] := by
    rw [List.filter_eq_nil_iff]
    intro k hk
    simp [dGet?]
  rw [hi, htf]
  have hvol : ∀ x ∈ ks.map (fun k => ((dGetD sv k 0 : ℕ) : ℚ)), (500 : ℚ) ≤ x := by
    intro x hx
    obtain ⟨k, hk, rfl⟩ := List.mem_map.mp hx
    have hh := hmem k hk
    have hsome : (dGet? sv k).isSome = true := by
      rw [dGet?_isSome_eq_dHas]
      exact hh
    obtain ⟨w, hw⟩ := Option.isSome_iff_exists.mp hsome
    obtain ⟨p, hp, hk2, hv2⟩ := dGet?_eq_some_imp hw
    have h5 : 500 ≤ w := hv2 ▸ hval p hp
    have hgd : dGetD sv k 0 = w := by
      unfold dGetD
      rw [hw]
      rfl
    rw [hgd]
    exact_mod_cast h5
  have hsum := mul_le_list_sum hvol
  rw [List.length_map] at hsum
  have hlen : (0 : ℚ) < (ks.length : ℚ) := by
    exact_mod_cast List.length_pos.mpr hkne
  have havg : (500 : ℚ) ≤ (ks.map (fun k => ((dGetD sv k 0 : ℕ) : ℚ))).sum / (ks.length : ℚ) := by
    rw [le_div_iff₀ hlen]
    linarith
  simp only [List.length_nil, Nat.cast_zero, zero_div, zero_mul, zero_add, add_zero]
  linarith

/-- With no trend data, every successful per-genre demand step yields a
score of at least 250. -/
theorem demandGenreStep_floor {g kws : PyVal} {s : ℕ} {r : DemandGenre × ℕ}
    (h : demandGenreStep (fun _ => Option.none) g kws s = .ok r)
    (ht : kws.truthy = true) : 250 ≤ r.1.score := by
  obtain ⟨trends, sv, ks, n, h1, h2, h3, h4, h5⟩ := demandGenreStep_inv h
  have htr : trends = [] := by
    cases kws with
    | str s2 =>
      have he : analyze_trends (fun _ => Option.none) (.str s2)
          = .ok (trendFold (fun _ => Option.none) (s2.data.map charStr)) := rfl
      rw [he, trendFold_none] at h1
      injection h1 with h1
      exact h1.symm
    | list l =>
      have he : analyze_trends (fun _ => Option.none) (.list l)
          = .ok (trendFold (fun _ => Option.none) l) := rfl
      rw [he, trendFold_none] at h1
      injection h1 with h1
      exact h1.symm
    | none => simp [analyze_trends] at h1
    | bool b => simp [analyze_trends] at h1
    | int n2 => simp [analyze_trends] at h1
    | float q => simp [analyze_trends] at h1
    | dict d => simp [analyze_trends] at h1
  obtain ⟨ks2, hks2, hfold⟩ := get_search_volume_inv h2
  rw [h3] at hks2
  injection hks2 with hks2
  subst hks2
  have hP : ∀ (k : PyVal) (s2 : ℕ) (r2 : ℕ × ℕ),
      (Except.ok (mock_search_volume k s2) : Except PyErr (ℕ × ℕ)) = .ok r2 →
      (500 : ℕ) ≤ r2.1 := by
    intro k s2 r2 hr
    injection hr with hr
    rw [← hr]
    exact randint_fst_lb 500 10000 s2
  obtain ⟨i1, _, i3, _, _⟩ := @kwFold_spec ℕ (fun p => 500 ≤ p.2)
    (fun k s2 => Except.ok (mock_search_volume k s2)) hP ks ([], s) sv hfold (by simp)
  have hn : n = ks.length := by
    have hpl := pyLen_eq_iterate_length h3
    rw [h4] at hpl
    exact Except.ok.inj hpl
  have hkne : ks ≠ [] := truthy_iterate_ne_nil ht h3
  rw [h5]
  show (250 : ℚ) ≤ demandScoreOf trends sv.1 ks kws.truthy n
  rw [htr, ht, hn]
  exact demandScoreOf_floor hkne i3 i1

/-- Claim C1 (amended): with no provider keys the competition-ease score
of every analyzed genre is exactly 100 — the genre-level average reads
the キーワード難易度 key that synthetic entries do not carry, so every
synthetic difficulty counts as 0 (trivially the score lies in [0,100]);
with no bearer token the SNS score lies in [0,100]; but the demand score
of every analyzed genre is at least 250 — already outside [0,100] —
whenever no trend data is available, and calculate_final_scores applies
no clamping (the concrete counterexample exhibits a composite total
above 100). -/
theorem C1_axis_bounds_partial :
    (∀ (sF uF : PyVal → Except PyErr CompRec) (genres : PyVal) (s : ℕ)
       (out : List (PyVal × CompGenre) × ℕ),
      analyze_genre_competition false false sF uF genres s = .ok out →
      ∀ p ∈ out.1, p.2.score = 100) ∧
    (∀ (tF : PyVal → Except PyErr SocialRec) (genres : PyVal) (s : ℕ)
       (out : List (PyVal × SocialGenre) × ℕ),
      analyze_genre_social false tF genres s = .ok out →
      ∀ p ∈ out.1, 0 ≤ p.2.score ∧ p.2.score ≤ 100) ∧
    (∀ (genres : PyVal) (s : ℕ) (out : List (PyVal × DemandGenre) × ℕ),
      analyze_demand (fun _ => Option.none) genres s = .ok out →
      ∀ p ∈ out.1, 250 ≤ p.2.score) := by
  refine ⟨?_, ?_, ?_⟩
  · intro sF uF genres s out hrun
    refine @genreFold_forall CompGenre (fun p => p.2.score = 100)
      (compGenreStep false false sF uF) ?_ genres s out hrun
    intro e g k s2 r hext hstep
    obtain ⟨cd, hA, h5⟩ := compGenreStep_inv hstep
    obtain ⟨ks, hit, hfold⟩ := analyze_competition_inv hA
    have hP : ∀ (k2 : PyVal) (s3 : ℕ) (r2 : CompEntry × ℕ),
        compKeywordStep false false sF uF k2 s3 = .ok r2 →
        r2.1.source = "モックデータ" := by
      intro k2 s3 r2 hr
      obtain ⟨k3, _, hrm⟩ := compKeywordStep_nokeys_mock hr
      rw [hrm]
      rfl
    obtain ⟨i1, _, _, _, _⟩ := @kwFold_spec CompEntry
      (fun p => p.2.source = "モックデータ")
      (compKeywordStep false false sF uF) hP ks ([], s2) cd hfold (by simp)
    rw [h5]
    exact compScoreOf_all_mock i1
  · intro tF genres s out hrun
    refine @genreFold_forall SocialGenre (fun p => 0 ≤ p.2.score ∧ p.2.score ≤ 100)
      (socialGenreStep false tF) ?_ genres s out hrun
    intro e g k s2 r hext hstep
    obtain ⟨td, hA, h5⟩ := socialGenreStep_inv hstep
    obtain ⟨ks, hit, hfold⟩ := analyze_twitter_engagement_inv hA
    have hP : ∀ (k2 : PyVal) (s3 : ℕ) (r2 : SocialEntry × ℕ),
        socialKeywordStep false tF k2 s3 = .ok r2 →
        0 ≤ r2.1.tweetCount ∧ 0 ≤ r2.1.engagementRate := by
      intro k2 s3 r2 hr
      obtain ⟨k3, _, hrm⟩ := socialKeywordStep_notoken_mock hr
      rw [hrm]
      exact mock_twitter_entry_bounds k3
    obtain ⟨i1, _, _, _, _⟩ := @kwFold_spec SocialEntry
      (fun p => 0 ≤ p.2.tweetCount ∧ 0 ≤ p.2.engagementRate)
      (socialKeywordStep false tF) hP ks ([], s2) td hfold (by simp)
    rw [h5]
    exact socialScoreOf_mem i1
  · intro genres s out hrun
    refine @genreFold_forall DemandGenre (fun p => 250 ≤ p.2.score)
      (demandGenreStep (fun _ => Option.none)) ?_ genres s out hrun
    intro e g k s2 r hext hstep
    exact demandGenreStep_floor hstep (extractGenre_some_truthy hext).2

section

attribute [local semireducible] Rat.add Rat.mul Rat.sub Rat.inv Rat.ofScientific

set_option maxRecDepth 100000

/-- Counterexample to claim C1 as stated: the dashboard run on a
one-genre payload yields the demand score 8967/2 = 4483.5 and so the
composite total 9167/4 = 2291.75, far above 100 — neither the demand
axis nor the composite is clamped to [0,100] (while the synthetic-only
competition-ease score is the constant 100). -/
theorem C1_counterexample :
    runAnalysis (fun _ => Option.none) false samplePayload 0 =
      .ok [(PyVal.str "A",
        { total := 9167 / 4, demandScore := 8967 / 2, compScore := 100,
          socialScore := Option.none })] ∧
    ¬((9167 : ℚ) / 4 ≤ 100) := by
  constructor
  · decide
  · decide

/-- Counterexample to claim C2 as stated: the synthetic demand volume
ignores its keyword but reads the ambient generator state, so two calls
with the same keyword disagree. -/
theorem C2_counterexample :
    (mock_search_volume (.str "k") 0).1 = 8967 ∧
    (mock_search_volume (.str "k") 1).1 = 5901 ∧
    (mock_search_volume (.str "k") 0).1 ≠ (mock_search_volume (.str "k") 1).1 := by
  refine ⟨?_, ?_, ?_⟩ <;> decide

/-- Witness instantiating C3 on concrete axis mappings that share the
genre "A". -/
theorem C3_witness :
    ∃ fs, dGet? (calculate_final_scores fsDemand fsComp fsSocial) (.str "A") = some fs ∧
      fs.demandScore = ((dGet? fsDemand (.str "A")).map DemandGenre.score).getD 0 ∧
      fs.compScore = ((dGet? fsComp (.str "A")).map CompGenre.score).getD 0 ∧
      (dHas fsSocial (.str "A") = true →
        fs.socialScore = some (((dGet? fsSocial (.str "A")).map SocialGenre.score).getD 0) ∧
        fs.total = fs.demandScore * 0.4 + fs.compScore * 0.4 +
          (((dGet? fsSocial (.str "A")).map SocialGenre.score).getD 0) * 0.2) ∧
      (dHas fsSocial (.str "A") = false →
        fs.socialScore = Option.none ∧
        fs.total = fs.demandScore * 0.5 + fs.compScore * 0.5) :=
  C3_composite_weight_redistribution fsDemand fsComp fsSocial (.str "A") (by decide)

/-- Witness instantiating C4 on the concrete safe sample payload. -/
theorem C4_witness :
    (∀ (oracle : PyVal → Option TrendInfo) (s : ℕ),
      ∃ r, analyze_demand oracle samplePayload s = .ok r) ∧
    (∀ (sK uK : Bool) (sF uF : PyVal → Except PyErr CompRec) (s : ℕ),
      ∃ r, analyze_genre_competition sK uK sF uF samplePayload s = .ok r) ∧
    (∀ (token : Bool) (tF : PyVal → Except PyErr SocialRec) (s : ℕ),
      ∃ r, analyze_genre_social token tF samplePayload s = .ok r) :=
  C4_safe_normalization samplePayload (by decide)

/-- Counterexample to claim C4 as stated: a None payload survives the
conversion step unchanged and then raises TypeError at the genre loop in
both analyzers. -/
theorem C4_counterexample :
    analyze_demand (fun _ => Option.none) PyVal.none 0 = .error .typeError ∧
    analyze_genre_competition false false noCompFetch noCompFetch PyVal.none 0 =
      .error .typeError := by
  constructor <;> rfl

/-- Counterexample to claim C5 as stated: two valid entries named "A" do
not both appear — the output mapping holds one entry under "A", and its
keyword analysis is the second entry's ("y", not "x"): last write wins
inside the analyzer. -/
theorem C5_counterexample :
    dupRun = .ok (dupRunOut, dupRunSt) ∧
    dupRunOut.length = 1 ∧
    dupRunOut.map Prod.fst = [.str "A"] ∧
    (dGet? dupRunOut (.str "A")).map (fun g => g.keywordAnalysis.map Prod.fst) =
      some [.str "y"] := by
  refine ⟨?_, ?_, ?_, ?_⟩ <;> decide

/-- Witness instantiating the amended C5 on the concrete duplicate-name
payload: the two entries named "A" collapse to a single key. -/
theorem C5_witness :
    dupRunOut.map Prod.fst = firstOccs (analyzedNames
      [.dict [("ジャンル名", .str "A"), ("関連するキーワード例", .list [.str "x"])],
       .dict [("ジャンル名", .str "A"), ("関連するキーワード例", .list [.str "y"])]]) ∧
    (dupRunOut.map Prod.fst).Nodup :=
  C5_duplicate_names_collapse.2 false false noCompFetch noCompFetch
    [.dict [("ジャンル名", .str "A"), ("関連するキーワード例", .list [.str "x"])],
     .dict [("ジャンル名", .str "A"), ("関連するキーワード例", .list [.str "y"])]]
    0 (dupRunOut, dupRunSt) (by decide)

/-- Witness instantiating C6 at the keyword "猫" with fetch hooks that
always fail. -/
theorem C6_witness :
    (∃ out, analyze_competition true false noCompFetch noCompFetch
        (.list (["猫"].map PyVal.str)) 5 = .ok out ∧
      (∀ k2 ∈ ["猫"], dHas out.1 (PyVal.str k2) = true) ∧
      dGet? out.1 (.str "猫") = some (mock_competition_data_core "猫").1) ∧
    (∃ out, analyze_twitter_engagement true noSocialFetch
        (.list (["猫"].map PyVal.str)) 7 = .ok out ∧
      (∀ k2 ∈ ["猫"], dHas out.1 (PyVal.str k2) = true) ∧
      dGet? out.1 (.str "猫") = some (mock_twitter_data_core "猫").1) :=
  C6_failed_fetch_falls_back ["猫"] "猫" (by simp) noCompFetch noCompFetch
    .typeError rfl noSocialFetch .typeError rfl 5 7

/-- Witness instantiating C7 on the concrete non-JSON payload string. -/
theorem C7_witness :
    analyze_demand (fun _ => Option.none) (.str "not a topic list") 3 = .ok ([], 3) ∧
    analyze_genre_competition false false noCompFetch noCompFetch
      (.str "not a topic list") 3 = .ok ([], 3) ∧
    analyze_genre_social false noSocialFetch (.str "not a topic list") 3 = .ok ([], 3) ∧
    calculate_final_scores [] [] [] = [] :=
  C7_invalid_json_yields_empty "not a topic list" (by decide) (fun _ => Option.none) 3
    false false noCompFetch noCompFetch false noSocialFetch

/-- Counterexample to claim C8 as stated: for the keyword "a" the
competitor count is the truncation 93592, while the rounding the claim
prescribes would give 93593. -/
theorem C8_counterexample :
    (mock_competition_data_core "a").1.competitors = 93592 ∧
    pyInt (compClampedDifficulty "a" * 1000 + compNoiseDraw "a") = 93592 ∧
    roundHalfEven (compClampedDifficulty "a" * 1000 + compNoiseDraw "a") = 93593 := by
  refine ⟨?_, ?_, ?_⟩ <;> decide

end
